import Mathlib

set_option autoImplicit false

/-
Verification of the DailyNews summarization core (src/dailynews/summarizer.py
together with src/dailynews/config.py) against its natural-language
specification.  Python strings are modelled as `List Char`; the `requests`
fetch and the summarization backend are modelled as explicit collaborator
functions; exceptions are modelled with `Except`.
-/

deriving instance DecidableEq for Except

namespace DailyNews

/-- Python strings are modelled as lists of characters. -/
abbrev Str := List Char

/-- The fixed sentinel returned by the pipeline when no content is available. -/
def sentinel : Str := "No news available.".data

/-- ASCII whitespace as matched by Python's `\s` and stripped by `str.strip()`:
space, tab, newline, carriage return, form feed, vertical tab. -/
def isPySpace (c : Char) : Bool :=
  c = ' ' || c = '\t' || c = '\n' || c = '\r' || c = '\x0c' || c = '\x0b'

/-- Leading-whitespace removal (the left half of Python's `str.strip()`). -/
def trimLeft (s : Str) : Str := s.dropWhile isPySpace

/-- Trailing-whitespace removal (the right half of Python's `str.strip()`). -/
def trimRight (s : Str) : Str := (s.reverse.dropWhile isPySpace).reverse

/-- Python's `str.strip()` on ASCII text. -/
def pyStrip (s : Str) : Str := trimRight (trimLeft s)

/-- Python's `x or dflt` where `x` is an optional string: a missing value or
an empty string is falsy and yields the default. -/
def orStr (v : Option Str) (dflt : Str) : Str :=
  match v with
  | some s => if s = [] then dflt else s
  | none => dflt

/-- Python's `str.lower()` restricted to ASCII case mapping. -/
def lowerStr (s : Str) : Str := s.map Char.toLower

/-- Whether `pat` is a prefix of `s` (character-exact). -/
def beginsWith : Str → Str → Bool
  | [], _ => true
  | _ :: _, [] => false
  | p :: ps, c :: cs => p = c && beginsWith ps cs

/-- Python's `pat in s` substring test. -/
def containsSub (pat : Str) : Str → Bool
  | [] => pat = []
  | c :: rest => beginsWith pat (c :: rest) || containsSub pat rest

/-- Whether the string contains a `>` character. -/
def hasGt : Str → Bool
  | [] => false
  | c :: rest => c = '>' || hasGt rest

/-- Split at the first `>`: returns the (gt-free) part before it and the part
after it, or `none` when the string has no `>`. -/
def splitFirstGt : Str → Option (Str × Str)
  | [] => none
  | c :: rest =>
    if c = '>' then some ([], rest)
    else
      match splitFirstGt rest with
      | some (b, a) => some (c :: b, a)
      | none => none

/-- Remainder of the string after the first occurrence of `lit`, or `none`
when `lit` does not occur. -/
def dropAfterFirst (lit : Str) : Str → Option Str
  | [] => none
  | c :: rest =>
    if beginsWith lit (c :: rest) then some (List.drop lit.length (c :: rest))
    else dropAfterFirst lit rest

/-- Fuelled scanner modelling Python's `html.unescape` restricted to the
common named entities `lt`, `gt`, `amp`, `quot`, `apos` (with semicolon);
all inputs appearing in this development use at most these.  A string
without `&` is left unchanged, exactly as in the stdlib.  The fuel bounds
the number of scanning steps; `unescape` supplies the input length, which
always suffices because every step consumes at least one character. -/
def unescapeGo : Nat → Str → Str
  | 0, s => s
  | _ + 1, [] => []
  | fuel + 1, c :: rest =>
    if c = '&' then
      if beginsWith "lt;".data rest then '<' :: unescapeGo fuel (rest.drop 3)
      else if beginsWith "gt;".data rest then '>' :: unescapeGo fuel (rest.drop 3)
      else if beginsWith "amp;".data rest then '&' :: unescapeGo fuel (rest.drop 4)
      else if beginsWith "quot;".data rest then '"' :: unescapeGo fuel (rest.drop 5)
      else if beginsWith "apos;".data rest then '\'' :: unescapeGo fuel (rest.drop 5)
      else c :: unescapeGo fuel rest
    else c :: unescapeGo fuel rest

/-- Python's `html.unescape` (modelled, see `unescapeGo`). -/
def unescape (s : Str) : Str := unescapeGo s.length s

/-- The `text.replace("\x00", " ")` step of `_normalise_text`. -/
def replaceNul (s : Str) : Str := s.map (fun c => if c = '\x00' then ' ' else c)

/-- Scanner for `re.sub(r"\s+", " ", text)`: `prevWs` records whether the
previous character was whitespace, so each maximal whitespace run emits a
single space. -/
def collapseWsGo : Bool → Str → Str
  | _, [] => []
  | prevWs, c :: rest =>
    if isPySpace c then
      if prevWs then collapseWsGo true rest else ' ' :: collapseWsGo true rest
    else c :: collapseWsGo false rest

/-- Python's `re.sub(r"\s+", " ", text)`. -/
def collapseWs (s : Str) : Str := collapseWsGo false s

/-- Model of `_normalise_text` from summarizer.py: unescape HTML entities, replace NUL
with a space, collapse whitespace runs to a single space, strip the ends. -/
def normalise_text (t : Str) : Str := pyStrip (collapseWs (replaceNul (unescape t)))

/-- Scanner implementing `re.sub(r"(?s)<[^>]+>", " ", s)`.  The buffer, when
present, holds (reversed) the characters seen since an unmatched `<`; the
regex matches `<`, one or more non-`>` characters, then the first `>`. -/
def tagSubGo : Str → Option Str → Str
  | [], none => []
  | [], some buf => '<' :: buf.reverse
  | c :: rest, none =>
    if c = '<' then tagSubGo rest (some []) else c :: tagSubGo rest none
  | c :: rest, some buf =>
    if c = '>' then
      if buf = [] then '<' :: '>' :: tagSubGo rest none
      else ' ' :: tagSubGo rest none
    else tagSubGo rest (some (c :: buf))

/-- Model of `_HTML_TAG_RE.sub(" ", s)` with `_HTML_TAG_RE = re.compile(r"(?s)<[^>]+>")`. -/
def tagSub (s : Str) : Str := tagSubGo s none

/-- ASCII case-insensitive prefix test; the pattern is given in lower case. -/
def lowerBeginsWith : Str → Str → Bool
  | [], _ => true
  | _ :: _, [] => false
  | p :: ps, c :: cs => p = c.toLower && lowerBeginsWith ps cs

/-- The closing-delimiter literal of `_SCRIPT_STYLE_RE`.  The source pattern
is the raw string `r"(?is)<(script|style).*?>.*?</\\1>"`: inside a raw string
`\\1` denotes a backslash-escaped backslash followed by `1`, so the regex
matches the five literal characters `</\1>` rather than a backreference to
the opening tag name. -/
def scriptCloseLit : Str := ['<', '/', '\\', '1', '>']

/-- Completion of a `_SCRIPT_STYLE_RE` match after the tag name: lazily take
`.*?` up to the first `>`, then `.*?` up to the first occurrence of the
literal `</\1>`; returns the remainder after the match, or `none` when the
pattern cannot complete.  (Trying later `>` characters can never succeed when
the first fails, since any literal occurrence after a later `>` also lies
after the first.) -/
def scriptMatchEnd (rest : Str) : Option Str :=
  match splitFirstGt rest with
  | none => none
  | some (_, after) => dropAfterFirst scriptCloseLit after

/-- Fuelled scanner for `_SCRIPT_STYLE_RE.sub(" ", s)`; the fuel bounds the
number of scanning steps and `scriptSub` supplies `s.length`, which always
suffices because every step consumes at least one character. -/
def scriptSubGo : Nat → Str → Str
  | 0, s => s
  | _ + 1, [] => []
  | fuel + 1, c :: rest =>
    if c = '<' then
      if lowerBeginsWith "script".data rest then
        match scriptMatchEnd (rest.drop 6) with
        | some tail => ' ' :: scriptSubGo fuel tail
        | none => c :: scriptSubGo fuel rest
      else if lowerBeginsWith "style".data rest then
        match scriptMatchEnd (rest.drop 5) with
        | some tail => ' ' :: scriptSubGo fuel tail
        | none => c :: scriptSubGo fuel rest
      else c :: scriptSubGo fuel rest
    else c :: scriptSubGo fuel rest

/-- Model of `_SCRIPT_STYLE_RE.sub(" ", s)` (with the broken closing literal, see
`scriptCloseLit`). -/
def scriptSub (s : Str) : Str := scriptSubGo s.length s

/-- Model of `_strip_html` from summarizer.py: if the text has no `<` return it
unchanged; otherwise substitute the script/style pattern, then remove the
remaining tags. -/
def strip_html (raw : Str) : Str :=
  if '<' ∈ raw then tagSub (scriptSub raw) else raw

example : strip_html "<p>Hello <b>world</b></p>".data = " Hello  world  ".data := by decide
example : strip_html "<script>alert(1)</script>".data = " alert(1) ".data := by decide
example : strip_html "a < b".data = "a < b".data := by decide
example : normalise_text "  Hello &amp;  world \x00 ".data = "Hello & world".data := by decide
example : strip_html (normalise_text (strip_html " a ".data)) = "a".data := by decide

/-- A raw article record: a string-keyed mapping with no guaranteed keys.
Only the keys read by the pipeline are modelled; a missing key is `none`,
matching `dict.get` returning `None`. -/
structure RawArticle where
  title : Option Str := none
  url : Option Str := none
  content : Option Str := none
  body : Option Str := none
  desc : Option Str := none
  description : Option Str := none
  source_domain : Option Str := none
deriving DecidableEq

/-- Outcome of the `requests.get` collaborator for one URL: either a raised
`RequestException` (including a non-2xx status surfaced by
`raise_for_status`), or a response carrying a `Content-Type` header value
and a body text. -/
inductive FetchResult where
  | failure
  | success (contentType : Str) (text : Str)
deriving DecidableEq

/-- The article-fetch collaborator: what `requests.get` yields per URL. -/
abbrev Fetch := Str → FetchResult

/-- Model of `_download_article_text`: empty URL returns empty; a fetch failure
returns empty; a response whose `Content-Type` does not contain `"text"`
returns empty; otherwise the body is truncated to `_MAX_REMOTE_CHARS = 8000`
characters, stripped of HTML and normalised. -/
def download_article_text (fetch : Fetch) (url : Str) : Str :=
  if url = [] then []
  else
    match fetch url with
    | .failure => []
    | .success contentType text =>
      if containsSub "text".data contentType then
        normalise_text (strip_html (text.take 8000))
      else []

/-- Model of `_resolve_article_content`: inline `content or body` (Python truthiness,
then `strip()`) wins if non-empty; else the URL is fetched; else
`desc or description`; else empty. -/
def resolve_article_content (fetch : Fetch) (a : RawArticle) : Str :=
  let inline_body := pyStrip (orStr a.content (orStr a.body []))
  if inline_body ≠ [] then normalise_text (strip_html inline_body)
  else
    let url := pyStrip (orStr a.url [])
    let remote := download_article_text fetch url
    if remote ≠ [] then remote
    else
      let fallback := pyStrip (orStr a.desc (orStr a.description []))
      if fallback ≠ [] then normalise_text (strip_html fallback)
      else []

/-- The `PreparedArticle` dataclass from summarizer.py. -/
structure PreparedArticle where
  title : Str
  link_text : Str
  content : Str
deriving DecidableEq

/-- The `bullet_line` property: `f"- {title}{link_text}"`. -/
def bullet_line (p : PreparedArticle) : Str := "- ".data ++ p.title ++ p.link_text

/-- Construction of one `PreparedArticle` from a raw article whose resolved
content is known: truncate to `_MAX_CHARS = 1000`, default the title to
`"(untitled)"`, derive `link_text` from the URL or the source domain. -/
def buildPrepared (fetch : Fetch) (a : RawArticle) : PreparedArticle :=
  let content := (resolve_article_content fetch a).take 1000
  let raw_title := pyStrip (orStr a.title [])
  let title := if raw_title = [] then "(untitled)".data else raw_title
  let url := pyStrip (orStr a.url [])
  let link_target := if url ≠ [] then url else pyStrip (orStr a.source_domain [])
  let link_text := if link_target ≠ [] then ' ' :: '(' :: (link_target ++ [')']) else []
  { title := title, link_text := link_text, content := content }

/-- Model of `_prepare_articles`: walk the first `_MAX_ARTICLES = 5` articles in
order, skip those whose resolved content is empty, build the rest. -/
def prepare_articles (fetch : Fetch) (articles : List RawArticle) : List PreparedArticle :=
  (articles.take 5).filterMap fun a =>
    if resolve_article_content fetch a = [] then none
    else some (buildPrepared fetch a)

/-- Outcome of invoking the backend callable once: a returned string, a
raised `TypeError`, or any other raised exception. -/
inductive CallResult where
  | ok (s : Str)
  | typeError
  | exn
deriving DecidableEq

/-- The summarizer backend callable.  `call2 content bullet` models
`summarizer(item.content, item.bullet_line)`; `call1 content` models the
single-argument compatibility retry `summarizer(item.content)`. -/
structure Backend where
  call2 : Str → Str → CallResult
  call1 : Str → CallResult

/-- The `try/except` ladder around one summarization call: a `TypeError`
from the two-argument call triggers a one-argument retry whose exceptions
propagate (they are raised inside the `except TypeError` handler); any other
exception degrades to the first 200 characters of the content. -/
def summarizeItem (b : Backend) (p : PreparedArticle) : Except Unit Str :=
  match b.call2 p.content (bullet_line p) with
  | .ok s => .ok s
  | .typeError =>
    match b.call1 p.content with
    | .ok s => .ok s
    | _ => .error ()
  | .exn => .ok (p.content.take 200)

/-- The per-article loop body of `summarize_articles`: strip each summary,
skip articles whose stripped summary is empty, emit
`f"{bullet_line}\n  {summary}"` blocks in order; a propagating exception
aborts the whole batch. -/
def summaryBlocks (b : Backend) : List PreparedArticle → Except Unit (List Str)
  | [] => .ok []
  | p :: rest =>
    match summarizeItem b p with
    | .error e => .error e
    | .ok raw =>
      let s := pyStrip raw
      match summaryBlocks b rest with
      | .error e => .error e
      | .ok blocks =>
        .ok (if s = [] then blocks else (bullet_line p ++ '\n' :: ' ' :: ' ' :: s) :: blocks)

/-- Model of `"\n".join(blocks)`. -/
def joinNl : List Str → Str
  | [] => []
  | [b] => b
  | b :: rest => b ++ '\n' :: joinNl rest

/-- Model of `summarize_articles`.  `getS` models `get_summarizer()`: backend
construction may itself raise (`.error`), which propagates; construction is
only attempted once the prepared list is known to be non-empty. -/
def summarize_articles (fetch : Fetch) (getS : Except Unit Backend)
    (articles : List RawArticle) : Except Unit Str :=
  if articles = [] then .ok sentinel
  else
    let prepared := prepare_articles fetch articles
    if prepared = [] then .ok sentinel
    else
      match getS with
      | .error e => .error e
      | .ok b =>
        match summaryBlocks b prepared with
        | .error e => .error e
        | .ok blocks => if blocks = [] then .ok sentinel else .ok (joinNl blocks)

/-- The grouping text of one article in `summarize_by_topic`:
`f"{art.get('title','')} {art.get('desc','')}".lower()`. -/
def topicText (a : RawArticle) : Str :=
  lowerStr ((a.title.getD []) ++ ' ' :: (a.desc.getD []))

/-- Whether an article belongs to a topic: `topic.lower() in text`. -/
def topicMatches (t : Str) (a : RawArticle) : Bool :=
  containsSub (lowerStr t) (topicText a)

/-- Model of the `defaultdict(list)` append: extend the entry for `t`, creating it at the
end (dict insertion order) when absent. -/
def addToGroup : List (Str × List RawArticle) → Str → RawArticle → List (Str × List RawArticle)
  | [], t, a => [(t, [a])]
  | (k, arts) :: rest, t, a =>
    if k = t then (k, arts ++ [a]) :: rest else (k, arts) :: addToGroup rest t a

/-- The inner loop of `summarize_by_topic`: test one article against every
topic in order, appending it to each matching topic's group. -/
def groupArticle (topics : List Str) (g : List (Str × List RawArticle))
    (a : RawArticle) : List (Str × List RawArticle) :=
  topics.foldl (fun g t => if topicMatches t a then addToGroup g t a else g) g

/-- The grouping phase of `summarize_by_topic` over all articles in order. -/
def groupedTopics (topics : List Str) (articles : List RawArticle) :
    List (Str × List RawArticle) :=
  articles.foldl (groupArticle topics) []

/-- The summarization phase of `summarize_by_topic`: summarize each group in
dict order; a propagating exception from any group aborts the call. -/
def mapTopicGroups (fetch : Fetch) (getS : Except Unit Backend) :
    List (Str × List RawArticle) → Except Unit (List (Str × Str))
  | [] => .ok []
  | (t, arts) :: rest =>
    match summarize_articles fetch getS arts with
    | .error e => .error e
    | .ok s =>
      match mapTopicGroups fetch getS rest with
      | .error e => .error e
      | .ok m => .ok ((t, s) :: m)

/-- Model of `summarize_by_topic`: group, then summarize each group. -/
def summarize_by_topic (fetch : Fetch) (getS : Except Unit Backend)
    (topics : List Str) (articles : List RawArticle) : Except Unit (List (Str × Str)) :=
  mapTopicGroups fetch getS (groupedTopics topics articles)

/-- The environment variables read by config.py and by the skip-flag check
in summarizer.py; `none` models an unset variable. -/
structure Env where
  dailynews_skip_hf : Option Str := none
  openrouter_api_key : Option Str := none
  openrouter_model : Option Str := none
  openrouter_api_url : Option Str := none
  dailynews_api_url : Option Str := none
  api_port : Option Str := none

/-- The `Settings` dataclass from config.py (its complete field list). -/
structure Settings where
  openrouter_api_key : Option Str
  openrouter_model : Str
  openrouter_api_url : Str
  api_port : Int
  api_base_url : Str

/-- The exception kinds that backend construction can surface. -/
inductive PyError where
  | attributeError
  | runtimeError
  | valueError
deriving DecidableEq

/-- A Python value as stored in a `Settings` attribute. -/
inductive PyVal where
  | vstr (s : Str)
  | vnone
  | vbool (b : Bool)
  | vint (n : Int)
deriving DecidableEq

/-- Python truthiness of an optional string (`bool(x)`). -/
def pyTruthyOpt (v : Option Str) : Bool :=
  match v with
  | some s => s ≠ []
  | none => false

/-- Python truthiness of a `PyVal`. -/
def pyTruthyVal : PyVal → Bool
  | .vstr s => s ≠ []
  | .vnone => false
  | .vbool b => b
  | .vint n => n ≠ 0

/-- Decimal digit run to a number, or `none` when empty or non-digit. -/
def digitsToNat (ds : Str) : Option Nat :=
  if ds = [] then none
  else if ds.all Char.isDigit then
    some (ds.foldl (fun n c => n * 10 + (c.toNat - 48)) 0)
  else none

/-- Python's `int(s)` on a decimal literal with optional sign and
surrounding whitespace; `none` models `ValueError`. -/
def parsePyInt (s : Str) : Option Int :=
  match pyStrip s with
  | '-' :: rest => (digitsToNat rest).map (fun n => -(n : Int))
  | '+' :: rest => (digitsToNat rest).map (fun n => (n : Int))
  | t => (digitsToNat t).map (fun n => (n : Int))

/-- Python's `str.rstrip("/")`. -/
def rstripSlash (s : Str) : Str := (s.reverse.dropWhile (fun c => c = '/')).reverse

/-- Model of `_load_settings` from config.py: read the OpenRouter credential and the
model/URL/port defaults; a malformed `API_PORT` raises `ValueError`. -/
def load_settings (env : Env) : Except PyError Settings :=
  let token := env.openrouter_api_key
  let model := orStr env.openrouter_model "x-ai/grok-4.1-fast".data
  let api_url := orStr env.openrouter_api_url "https://openrouter.ai/x-ai/grok-4.1-fast/api".data
  let base_url := rstripSlash (orStr env.dailynews_api_url "http://localhost:8000".data)
  let port_raw := env.api_port.getD "8000".data
  match parsePyInt port_raw with
  | none => .error .valueError
  | some port =>
    .ok { openrouter_api_key := token, openrouter_model := model,
          openrouter_api_url := api_url, api_port := port, api_base_url := base_url }

/-- Python attribute lookup on a `Settings` instance: exactly the dataclass
fields plus the one property defined in config.py
(`has_openrouter_credentials`); any other name yields `AttributeError`
(`none`). -/
def Settings.attr (s : Settings) (name : Str) : Option PyVal :=
  if name = "openrouter_api_key".data then
    some (match s.openrouter_api_key with | some k => .vstr k | none => .vnone)
  else if name = "openrouter_model".data then some (.vstr s.openrouter_model)
  else if name = "openrouter_api_url".data then some (.vstr s.openrouter_api_url)
  else if name = "api_port".data then some (.vint s.api_port)
  else if name = "api_base_url".data then some (.vstr s.api_base_url)
  else if name = "has_openrouter_credentials".data then
    some (.vbool (pyTruthyOpt s.openrouter_api_key))
  else none

/-- How far backend construction got.  `stub` is the `DAILYNEWS_SKIP_HF`
stub; `proceedsToBackendInit` marks passing the credential check, after
which construction performs external imports and model I/O that lie outside
this embedding. -/
inductive SummarizerOutcome where
  | stub
  | proceedsToBackendInit
deriving DecidableEq

/-- The selection prefix of `get_summarizer` from summarizer.py (the cache
is empty at first use): honour `DAILYNEWS_SKIP_HF=1`; otherwise load the
settings and evaluate `settings.has_hf_credentials` — an attribute access on
the `Settings` object from config.py — raising the credential
`RuntimeError` when it is falsy. -/
def get_summarizer (env : Env) : Except PyError SummarizerOutcome :=
  if env.dailynews_skip_hf = some "1".data then .ok .stub
  else
    match load_settings env with
    | .error e => .error e
    | .ok settings =>
      match settings.attr "has_hf_credentials".data with
      | none => .error .attributeError
      | some v =>
        if pyTruthyVal v then .ok .proceedsToBackendInit
        else .error .runtimeError

example : get_summarizer { dailynews_skip_hf := some "1".data } = .ok .stub := by decide
example : get_summarizer {} = .error .attributeError := by decide
example : get_summarizer { openrouter_api_key := some "secret".data } = .error .attributeError := by
  decide

example :
    summarize_articles (fun _ => .failure) (.ok ⟨fun _ _ => .ok "S".data, fun _ => .exn⟩)
      [{ title := some "Economy".data, content := some "The markets.".data,
         url := some "https://e.com/a".data }] =
    .ok "- Economy (https://e.com/a)\n  S".data := by decide

example :
    summarize_by_topic (fun _ => .failure) (.ok ⟨fun _ _ => .ok "S".data, fun _ => .exn⟩)
      ["economy".data] [] = .ok [] := by decide

/-! Concrete fixtures used by witnesses and counterexamples. -/

/-- A fetch collaborator whose every request fails. -/
def fetchNone : Fetch := fun _ => .failure

/-- A fetch collaborator that always returns a small text page. -/
def fetchHello : Fetch := fun _ => .success "text/html".data "hello".data

/-- A backend that returns a whitespace-only summary for every article. -/
def backendWs : Backend := ⟨fun _ _ => .ok " ".data, fun _ => .exn⟩

/-- A backend that returns a fixed summary for every article. -/
def backendS : Backend := ⟨fun _ _ => .ok "S".data, fun _ => .exn⟩

/-- A backend that raises on the article whose content is `beta` and
summarizes the rest. -/
def backend3 : Backend :=
  ⟨fun c _ => if c = "beta".data then .exn else .ok "S".data, fun _ => .exn⟩

/-- An article carrying only a title: no content can be resolved offline. -/
def artTitleOnly : RawArticle := { title := some "t".data }

/-- Articles with inline content. -/
def artA : RawArticle := { title := some "A".data, content := some "alpha".data }

def artB : RawArticle := { title := some "B".data, content := some "beta".data }

def artC : RawArticle := { title := some "C".data, content := some "gamma".data }

/-- An article with only a URL, so its content can only come from a fetch. -/
def artU : RawArticle := { title := some "a".data, url := some "u".data }

/-- First value stored under key `t` in an association list (the lookup
behaviour of a Python dict whose keys are unique). -/
def lookupG {α : Type} (t : Str) : List (Str × α) → Option α
  | [] => none
  | (k, v) :: rest => if k = t then some v else lookupG t rest

/-- The key sequence of an association list (dict insertion order). -/
def keysOf {α : Type} (g : List (Str × α)) : List Str := g.map Prod.fst

/-- Whether the string starts with `>`. -/
def headIsGt : Str → Bool
  | [] => false
  | c :: _ => c = '>'

/-- No occurrence of the tag regex `<[^>]+>`: every `<` is either
immediately followed by `>` or has no `>` anywhere after it. -/
def tagFree : Str → Bool
  | [] => true
  | c :: rest =>
    (if c = '<' then headIsGt rest || !hasGt rest else true) && tagFree rest

/-- Invariant characterising strings on which `collapseWsGo prev` is the
identity: every whitespace character is a single space not preceded by
whitespace (`prev` records whether the previous character was whitespace). -/
def collapsedOK : Bool → Str → Bool
  | _, [] => true
  | prev, c :: rest =>
    if isPySpace c then (c = ' ' && !prev) && collapsedOK true rest
    else collapsedOK false rest

/-! Basic facts about the string helpers. -/

theorem dropWhile_head_false (p : Char → Bool) (l : Str) :
    l.dropWhile p = [] ∨ p ((l.dropWhile p).headI) = false := by
  induction l with
  | nil => exact Or.inl rfl
  | cons c rest ih =>
    by_cases h : p c
    · simpa [List.dropWhile_cons, h] using ih
    · right
      simp [List.dropWhile_cons, h]

theorem trimRight_isPrefix (s : Str) : trimRight s <+: s := by
  have h : (trimRight s).reverse <:+ s.reverse := by
    simpa [trimRight] using List.dropWhile_suffix (p := isPySpace) (l := s.reverse)
  exact List.reverse_suffix.mp h

theorem trimRight_eq_nil_iff (s : Str) : trimRight s = [] ↔ ∀ c ∈ s, isPySpace c := by
  constructor
  · intro h c hc
    have h' : s.reverse.dropWhile isPySpace = [] := by
      have := congrArg List.reverse h
      simpa [trimRight] using this
    exact List.dropWhile_eq_nil_iff.mp h' c (List.mem_reverse.mpr hc)
  · intro h
    have h' : s.reverse.dropWhile isPySpace = [] :=
      List.dropWhile_eq_nil_iff.mpr fun c hc => h c (List.mem_reverse.mp hc)
    simp [trimRight, h']

theorem prefix_headI (l₁ l₂ : Str) (h : l₁ <+: l₂) (hne : l₁ ≠ []) : l₁.headI = l₂.headI := by
  obtain ⟨t, rfl⟩ := h
  cases l₁ with
  | nil => exact absurd rfl hne
  | cons c r => rfl

theorem pyStrip_headI (s : Str) : pyStrip s = [] ∨ isPySpace (pyStrip s).headI = false := by
  rcases dropWhile_head_false isPySpace s with h | h
  · left
    simp [pyStrip, trimLeft, h, trimRight]
  · by_cases hnil : pyStrip s = []
    · exact Or.inl hnil
    · right
      have hpre : trimRight (trimLeft s) <+: trimLeft s := trimRight_isPrefix _
      have := prefix_headI _ _ hpre hnil
      rw [pyStrip, this]
      exact h

theorem normalise_text_headI (t : Str) :
    normalise_text t = [] ∨ isPySpace (normalise_text t).headI = false :=
  pyStrip_headI _

theorem pyStrip_take_ne_nil (s : Str) (h1 : s ≠ []) (h2 : isPySpace s.headI = false)
    (n : Nat) (hn : 0 < n) : pyStrip (s.take n) ≠ [] := by
  cases s with
  | nil => exact absurd rfl h1
  | cons c rest =>
    cases n with
    | zero => omega
    | succ m =>
      intro hcontra
      have hc : isPySpace c = false := h2
      have htl : trimLeft (c :: rest.take m) = c :: rest.take m := by
        simp [trimLeft, List.dropWhile_cons, hc]
      rw [pyStrip, List.take_succ_cons, htl] at hcontra
      have := (trimRight_eq_nil_iff _).mp hcontra c (by simp)
      rw [hc] at this
      exact Bool.false_ne_true this

/-! Facts about content resolution and article preparation. -/

theorem download_eq_normalise (fetch : Fetch) (url : Str)
    (h : download_article_text fetch url ≠ []) :
    ∃ z, download_article_text fetch url = normalise_text z := by
  rw [download_article_text] at h ⊢
  by_cases hu : url = []
  · simp [hu] at h
  · simp only [hu, if_false] at h ⊢
    cases hf : fetch url with
    | failure =>
      rw [hf] at h
      simp at h
    | success ct text =>
      by_cases hct : containsSub "text".data ct = true
      · exact ⟨strip_html (text.take 8000), by simp [hct]⟩
      · rw [hf] at h
        simp [hct] at h

theorem resolve_eq_normalise (fetch : Fetch) (a : RawArticle)
    (h : resolve_article_content fetch a ≠ []) :
    ∃ z, resolve_article_content fetch a = normalise_text z := by
  by_cases h1 : pyStrip (orStr a.content (orStr a.body [])) = []
  · by_cases h2 : download_article_text fetch (pyStrip (orStr a.url [])) = []
    · by_cases h3 : pyStrip (orStr a.desc (orStr a.description [])) = []
      · exfalso
        apply h
        rw [resolve_article_content]
        simp [h1, h2, h3]
      · refine ⟨strip_html (pyStrip (orStr a.desc (orStr a.description []))), ?_⟩
        rw [resolve_article_content]
        simp [h1, h2, h3]
    · obtain ⟨z, hz⟩ := download_eq_normalise fetch _ h2
      refine ⟨z, ?_⟩
      rw [resolve_article_content]
      simp only [h1, ne_eq, not_true_eq_false, if_false]
      rw [if_pos h2]
      exact hz
  · refine ⟨strip_html (pyStrip (orStr a.content (orStr a.body []))), ?_⟩
    rw [resolve_article_content]
    simp [h1]

theorem resolve_headI (fetch : Fetch) (a : RawArticle)
    (h : resolve_article_content fetch a ≠ []) :
    isPySpace (resolve_article_content fetch a).headI = false := by
  obtain ⟨z, hz⟩ := resolve_eq_normalise fetch a h
  rcases normalise_text_headI z with h' | h'
  · rw [hz] at h
    exact absurd h' h
  · rw [hz]
    exact h'

theorem prepared_mem_spec (fetch : Fetch) (arts : List RawArticle) (p : PreparedArticle)
    (hp : p ∈ prepare_articles fetch arts) :
    ∃ a, a ∈ arts.take 5 ∧ resolve_article_content fetch a ≠ [] ∧
      p = buildPrepared fetch a := by
  rw [prepare_articles] at hp
  obtain ⟨a, ha, hfa⟩ := List.mem_filterMap.mp hp
  by_cases h : resolve_article_content fetch a = []
  · rw [if_pos h] at hfa
    cases hfa
  · rw [if_neg h] at hfa
    exact ⟨a, ha, h, (Option.some_injective _ hfa).symm⟩

theorem prepared_content_spec (fetch : Fetch) (arts : List RawArticle) (p : PreparedArticle)
    (hp : p ∈ prepare_articles fetch arts) :
    p.content ≠ [] ∧ isPySpace p.content.headI = false ∧ p.content.length ≤ 1000 := by
  obtain ⟨a, _, hres, rfl⟩ := prepared_mem_spec fetch arts p hp
  have hcontent : (buildPrepared fetch a).content = (resolve_article_content fetch a).take 1000 := rfl
  rw [hcontent]
  cases hr : resolve_article_content fetch a with
  | nil => exact absurd hr hres
  | cons c rest =>
    refine ⟨by simp, ?_, ?_⟩
    · have := resolve_headI fetch a hres
      rw [hr] at this
      exact this
    · simp

/-! Facts about the per-article summarization loop. -/

theorem summaryBlocks_all_empty (b : Backend) (ps : List PreparedArticle)
    (h : ∀ p ∈ ps, ∃ s, summarizeItem b p = .ok s ∧ pyStrip s = []) :
    summaryBlocks b ps = .ok [] := by
  induction ps with
  | nil => rfl
  | cons p rest ih =>
    obtain ⟨s, hs, hstrip⟩ := h p (by simp)
    have hrest := ih fun q hq => h q (by simp [hq])
    rw [summaryBlocks, hs, hrest]
    simp [hstrip]

theorem summaryBlocks_error_of_mem (b : Backend) (ps : List PreparedArticle)
    (p : PreparedArticle) (hp : p ∈ ps) (herr : summarizeItem b p = .error ()) :
    summaryBlocks b ps = .error () := by
  induction ps with
  | nil => cases hp
  | cons q rest ih =>
    rcases List.mem_cons.mp hp with rfl | hmem
    · rw [summaryBlocks, herr]
    · rw [summaryBlocks]
      cases hq : summarizeItem b q with
      | error e => cases e; rfl
      | ok s => rw [ih hmem]

/-- C1: for an empty article list, or when no article yields non-empty
resolved content (equivalently, when the prepared list is empty), or when
every per-article summary strips to the empty string, `summarize_articles`
returns exactly the sentinel `"No news available."` as a normal value
(`Except.ok`, never an exception). -/
theorem summarize_articles_no_content (fetch : Fetch) (getS : Except Unit Backend)
    (articles : List RawArticle) :
    (articles = [] → summarize_articles fetch getS articles = Except.ok sentinel) ∧
    ((∀ a ∈ articles, resolve_article_content fetch a = []) →
      summarize_articles fetch getS articles = Except.ok sentinel) ∧
    (prepare_articles fetch articles = [] →
      summarize_articles fetch getS articles = Except.ok sentinel) ∧
    (∀ b, getS = Except.ok b →
      (∀ p ∈ prepare_articles fetch articles,
        ∃ s, summarizeItem b p = Except.ok s ∧ pyStrip s = []) →
      summarize_articles fetch getS articles = Except.ok sentinel) := by
  have hprep_empty : prepare_articles fetch articles = [] →
      summarize_articles fetch getS articles = Except.ok sentinel := by
    intro h
    by_cases he : articles = []
    · simp [summarize_articles, he]
    · simp [summarize_articles, he, h]
  refine ⟨?_, ?_, hprep_empty, ?_⟩
  · intro h
    simp [summarize_articles, h]
  · intro h
    apply hprep_empty
    rw [prepare_articles]
    apply List.filterMap_eq_nil_iff.mpr
    intro a ha
    rw [if_pos (h a (List.mem_of_mem_take ha))]
  · intro b hb hall
    by_cases he : articles = []
    · simp [summarize_articles, he]
    · by_cases hp : prepare_articles fetch articles = []
      · exact hprep_empty hp
      · have hblocks := summaryBlocks_all_empty b _ hall
        simp [summarize_articles, he, hp, hb, hblocks]

/-- Witness for C1: a title-only article resolves to no content and yields
the sentinel; an article whose backend summary is whitespace-only also
yields the sentinel. -/
theorem summarize_articles_no_content_witness :
    summarize_articles fetchNone (Except.ok backendWs) [artTitleOnly] = Except.ok sentinel ∧
    summarize_articles fetchNone (Except.ok backendWs) [artA] = Except.ok sentinel := by
  constructor
  · exact (summarize_articles_no_content fetchNone (Except.ok backendWs) [artTitleOnly]).2.1
      (by decide)
  · refine (summarize_articles_no_content fetchNone (Except.ok backendWs) [artA]).2.2.2
      backendWs rfl ?_
    intro p hp
    have hps : prepare_articles fetchNone [artA] = [buildPrepared fetchNone artA] := by decide
    rw [hps, List.mem_singleton] at hp
    subst hp
    exact ⟨" ".data, by decide, by decide⟩

/-- C10: when the two-argument backend call raises `TypeError`, the loop
retries with the content argument alone; a summary returned by the retry is
used normally, while an exception raised by the retry propagates out of
`summarize_articles` and aborts the whole batch. -/
theorem summarize_typeerror_retry (fetch : Fetch) (b : Backend) (articles : List RawArticle)
    (p : PreparedArticle) (hp : p ∈ prepare_articles fetch articles)
    (h2 : b.call2 p.content (bullet_line p) = CallResult.typeError) :
    ((b.call1 p.content = CallResult.typeError ∨ b.call1 p.content = CallResult.exn) →
      summarize_articles fetch (Except.ok b) articles = Except.error ()) ∧
    (∀ s, b.call1 p.content = CallResult.ok s → summarizeItem b p = Except.ok s) := by
  constructor
  · intro h1
    have hitem : summarizeItem b p = Except.error () := by
      rw [summarizeItem, h2]
      rcases h1 with h | h <;> rw [h]
    have hblocks := summaryBlocks_error_of_mem b _ p hp hitem
    have hne : prepare_articles fetch articles ≠ [] := List.ne_nil_of_mem hp
    have harts : articles ≠ [] := by
      intro he
      rw [he] at hp
      simp [prepare_articles] at hp
    simp [summarize_articles, harts, hne, hblocks]
  · intro s hs
    rw [summarizeItem, h2, hs]

/-- Witness for C10: a backend that raises `TypeError` on the two-argument
call and raises again on the retry makes the whole batch fail. -/
theorem summarize_typeerror_retry_witness :
    summarize_articles fetchNone
      (Except.ok ⟨fun _ _ => CallResult.typeError, fun _ => CallResult.exn⟩) [artA] =
      Except.error () :=
  (summarize_typeerror_retry fetchNone
      ⟨fun _ _ => CallResult.typeError, fun _ => CallResult.exn⟩ [artA]
      (buildPrepared fetchNone artA) (by decide) (by decide)).1 (Or.inr (by decide))

/-- C2: a non-`TypeError` exception from the backend call for one article
degrades that article to the first 200 characters of its content and the
other articles' blocks are still emitted: with 3 prepared articles where
only the 2nd backend call raises, the output has 3 blocks and the 2nd holds
the degraded content. -/
theorem summarize_partial_failure (fetch : Fetch) (b : Backend) (articles : List RawArticle)
    (p1 p2 p3 : PreparedArticle) (s1 s3 : Str)
    (hprep : prepare_articles fetch articles = [p1, p2, p3])
    (h1 : b.call2 p1.content (bullet_line p1) = CallResult.ok s1) (h1n : pyStrip s1 ≠ [])
    (h2 : b.call2 p2.content (bullet_line p2) = CallResult.exn)
    (h3 : b.call2 p3.content (bullet_line p3) = CallResult.ok s3) (h3n : pyStrip s3 ≠ []) :
    summarize_articles fetch (Except.ok b) articles = Except.ok (joinNl
      [bullet_line p1 ++ '\n' :: ' ' :: ' ' :: pyStrip s1,
       bullet_line p2 ++ '\n' :: ' ' :: ' ' :: pyStrip (p2.content.take 200),
       bullet_line p3 ++ '\n' :: ' ' :: ' ' :: pyStrip s3]) := by
  have hp2 : p2 ∈ prepare_articles fetch articles := by
    rw [hprep]
    simp
  obtain ⟨hc2ne, hc2head, _⟩ := prepared_content_spec fetch articles p2 hp2
  have hdeg : pyStrip (p2.content.take 200) ≠ [] :=
    pyStrip_take_ne_nil p2.content hc2ne hc2head 200 (by omega)
  have hblocks : summaryBlocks b [p1, p2, p3] = Except.ok
      [bullet_line p1 ++ '\n' :: ' ' :: ' ' :: pyStrip s1,
       bullet_line p2 ++ '\n' :: ' ' :: ' ' :: pyStrip (p2.content.take 200),
       bullet_line p3 ++ '\n' :: ' ' :: ' ' :: pyStrip s3] := by
    simp [summaryBlocks, summarizeItem, h1, h2, h3, h1n, h3n, hdeg]
  have harts : articles ≠ [] := by
    intro he
    rw [he] at hprep
    simp [prepare_articles] at hprep
  simp [summarize_articles, harts, hprep, hblocks]

/-- Witness for C2: three inline-content articles where the backend raises
exactly on the middle one. -/
theorem summarize_partial_failure_witness :
    summarize_articles fetchNone (Except.ok backend3) [artA, artB, artC] = Except.ok (joinNl
      [bullet_line (buildPrepared fetchNone artA) ++ '\n' :: ' ' :: ' ' :: pyStrip "S".data,
       bullet_line (buildPrepared fetchNone artB) ++ '\n' :: ' ' :: ' ' ::
         pyStrip ((buildPrepared fetchNone artB).content.take 200),
       bullet_line (buildPrepared fetchNone artC) ++ '\n' :: ' ' :: ' ' :: pyStrip "S".data]) :=
  summarize_partial_failure fetchNone backend3 [artA, artB, artC]
    (buildPrepared fetchNone artA) (buildPrepared fetchNone artB) (buildPrepared fetchNone artC)
    "S".data "S".data (by decide) (by decide) (by decide) (by decide) (by decide) (by decide)

theorem filterMap_prepare_eq (fetch : Fetch) (l : List RawArticle) :
    (l.filterMap fun a => if resolve_article_content fetch a = [] then none
      else some (buildPrepared fetch a)) =
    (l.filter fun a => resolve_article_content fetch a ≠ []).map (buildPrepared fetch) := by
  induction l with
  | nil => rfl
  | cons a rest ih =>
    by_cases h : resolve_article_content fetch a = [] <;>
      simp [List.filterMap_cons, List.filter_cons, h, ih]

/-- C4: the preparer reads only the first 5 articles; it emits, in input
order, exactly one `PreparedArticle` for each of those whose resolved
content is non-empty (the rest are dropped silently); and every emitted
content is non-empty of length at most 1000. -/
theorem prepare_articles_spec (fetch : Fetch) (articles : List RawArticle) :
    prepare_articles fetch articles = prepare_articles fetch (articles.take 5) ∧
    prepare_articles fetch articles =
      ((articles.take 5).filter fun a => resolve_article_content fetch a ≠ []).map
        (buildPrepared fetch) ∧
    ∀ p ∈ prepare_articles fetch articles, p.content ≠ [] ∧ p.content.length ≤ 1000 := by
  refine ⟨?_, ?_, ?_⟩
  · simp [prepare_articles, List.take_take]
  · rw [prepare_articles, filterMap_prepare_eq]
  · intro p hp
    obtain ⟨hne, _, hlen⟩ := prepared_content_spec fetch articles p hp
    exact ⟨hne, hlen⟩

/-- Witness for C4: the content bound holds at a concrete prepared article,
and a 6-article batch prepares the same list as its 5-article prefix. -/
theorem prepare_articles_spec_witness :
    ((buildPrepared fetchNone artA).content ≠ [] ∧
      (buildPrepared fetchNone artA).content.length ≤ 1000) ∧
    prepare_articles fetchNone [artA, artB, artC, artA, artB, artC] =
      prepare_articles fetchNone ([artA, artB, artC, artA, artB, artC].take 5) := by
  constructor
  · exact (prepare_articles_spec fetchNone [artA]).2.2 (buildPrepared fetchNone artA) (by decide)
  · exact (prepare_articles_spec fetchNone [artA, artB, artC, artA, artB, artC]).1

/-- C3: content resolution follows the strict fallback chain.  A non-empty
trimmed inline `content or body` is normalised and returned with the fetch
collaborator never consulted (the result is the same for every fetch);
otherwise the URL is fetched, a failed fetch or non-text response degrades
to the description step, a successful text response yields the normalised
stripped page truncated to 8000 characters pre-strip; when the remote text
is empty the trimmed `desc or description` is used if non-empty, else the
empty string. -/
theorem resolve_content_fallback (fetch : Fetch) (a : RawArticle) :
    (pyStrip (orStr a.content (orStr a.body [])) ≠ [] →
      resolve_article_content fetch a =
        normalise_text (strip_html (pyStrip (orStr a.content (orStr a.body [])))) ∧
      ∀ fetch', resolve_article_content fetch' a = resolve_article_content fetch a) ∧
    (pyStrip (orStr a.content (orStr a.body [])) = [] →
      (fetch (pyStrip (orStr a.url [])) = FetchResult.failure →
        download_article_text fetch (pyStrip (orStr a.url [])) = []) ∧
      (∀ ct text, fetch (pyStrip (orStr a.url [])) = FetchResult.success ct text →
        containsSub "text".data ct = false →
        download_article_text fetch (pyStrip (orStr a.url [])) = []) ∧
      (∀ ct text, pyStrip (orStr a.url []) ≠ [] →
        fetch (pyStrip (orStr a.url [])) = FetchResult.success ct text →
        containsSub "text".data ct = true →
        download_article_text fetch (pyStrip (orStr a.url [])) =
          normalise_text (strip_html (text.take 8000))) ∧
      (download_article_text fetch (pyStrip (orStr a.url [])) ≠ [] →
        resolve_article_content fetch a =
          download_article_text fetch (pyStrip (orStr a.url []))) ∧
      (download_article_text fetch (pyStrip (orStr a.url [])) = [] →
        resolve_article_content fetch a =
          if pyStrip (orStr a.desc (orStr a.description [])) ≠ []
          then normalise_text (strip_html (pyStrip (orStr a.desc (orStr a.description []))))
          else [])) := by
  constructor
  · intro h
    constructor
    · rw [resolve_article_content]
      simp [h]
    · intro fetch'
      rw [resolve_article_content, resolve_article_content]
      simp [h]
  · intro h
    refine ⟨?_, ?_, ?_, ?_, ?_⟩
    · intro hf
      rw [download_article_text]
      by_cases hu : pyStrip (orStr a.url []) = [] <;> simp [hu, hf]
    · intro ct text hf hct
      rw [download_article_text]
      by_cases hu : pyStrip (orStr a.url []) = [] <;> simp [hu, hf, hct]
    · intro ct text hu hf hct
      rw [download_article_text]
      simp [hu, hf, hct]
    · intro hd
      rw [resolve_article_content]
      simp [h, hd]
    · intro hd
      rw [resolve_article_content]
      simp [h, hd]

/-- Witness for C3: an inline-content article resolves identically under a
failing fetch and a succeeding fetch, to its normalised inline content; a
URL-only article degrades to empty under a failing fetch and picks up the
page text under a succeeding one. -/
theorem resolve_content_fallback_witness :
    resolve_article_content fetchNone artA =
      normalise_text (strip_html (pyStrip (orStr artA.content (orStr artA.body [])))) ∧
    resolve_article_content fetchHello artA = resolve_article_content fetchNone artA ∧
    download_article_text fetchNone (pyStrip (orStr artU.url [])) = [] ∧
    resolve_article_content fetchHello artU =
      download_article_text fetchHello (pyStrip (orStr artU.url [])) := by
  refine ⟨?_, ?_, ?_, ?_⟩
  · exact ((resolve_content_fallback fetchNone artA).1 (by decide)).1
  · exact ((resolve_content_fallback fetchNone artA).1 (by decide)).2 fetchHello
  · exact ((resolve_content_fallback fetchNone artU).2 (by decide)).1 (by decide)
  · exact (((resolve_content_fallback fetchHello artU).2 (by decide)).2.2.2.1) (by decide)

/-! Facts about topic grouping. -/

theorem keysOf_nil {α : Type} : keysOf ([] : List (Str × α)) = [] := rfl

theorem keysOf_cons {α : Type} (k : Str) (v : α) (rest : List (Str × α)) :
    keysOf ((k, v) :: rest) = k :: keysOf rest := rfl

theorem lookupG_addToGroup_same (g : List (Str × List RawArticle)) (t : Str) (a : RawArticle) :
    lookupG t (addToGroup g t a) = some ((lookupG t g).getD [] ++ [a]) := by
  induction g with
  | nil => simp [addToGroup, lookupG]
  | cons kv rest ih =>
    obtain ⟨k, arts⟩ := kv
    by_cases hk : k = t
    · subst hk
      simp [addToGroup, lookupG]
    · simp [addToGroup, lookupG, hk, ih]

theorem lookupG_addToGroup_ne (g : List (Str × List RawArticle)) (t t' : Str) (a : RawArticle)
    (h : t' ≠ t) : lookupG t' (addToGroup g t a) = lookupG t' g := by
  have h' : ¬t = t' := fun he => h he.symm
  induction g with
  | nil => simp [addToGroup, lookupG, h']
  | cons kv rest ih =>
    obtain ⟨k, arts⟩ := kv
    by_cases hk : k = t
    · subst hk
      simp [addToGroup, lookupG, h']
    · simp [addToGroup, lookupG, hk, ih]

theorem mem_keys_addToGroup (g : List (Str × List RawArticle)) (t : Str) (a : RawArticle)
    (x : Str) (hx : x ∈ keysOf (addToGroup g t a)) : x ∈ keysOf g ∨ x = t := by
  induction g with
  | nil =>
    right
    simpa [addToGroup, keysOf] using hx
  | cons kv rest ih =>
    obtain ⟨k, arts⟩ := kv
    by_cases hk : k = t
    · subst hk
      left
      simp only [addToGroup, eq_self_iff_true, if_true, keysOf_cons] at hx
      rw [keysOf_cons]
      exact hx
    · simp only [addToGroup, if_neg hk, keysOf_cons] at hx
      rcases List.mem_cons.mp hx with rfl | hmem
      · left
        rw [keysOf_cons]
        exact List.mem_cons_self _ _
      · rcases ih hmem with h' | h'
        · left
          rw [keysOf_cons]
          exact List.mem_cons_of_mem _ h'
        · exact Or.inr h'

theorem nodup_keys_addToGroup (g : List (Str × List RawArticle)) (t : Str) (a : RawArticle)
    (h : (keysOf g).Nodup) : (keysOf (addToGroup g t a)).Nodup := by
  induction g with
  | nil => simp [addToGroup, keysOf]
  | cons kv rest ih =>
    obtain ⟨k, arts⟩ := kv
    rw [keysOf_cons, List.nodup_cons] at h
    by_cases hk : k = t
    · subst hk
      simp only [addToGroup, eq_self_iff_true, if_true]
      rw [keysOf_cons, List.nodup_cons]
      exact h
    · simp only [addToGroup, if_neg hk]
      rw [keysOf_cons, List.nodup_cons]
      refine ⟨fun hmem => ?_, ih h.2⟩
      rcases mem_keys_addToGroup rest t a k hmem with h' | h'
      · exact h.1 h'
      · exact hk h'

theorem groupArticle_cons (t0 : Str) (ts : List Str) (g : List (Str × List RawArticle))
    (a : RawArticle) :
    groupArticle (t0 :: ts) g a =
      groupArticle ts (if topicMatches t0 a then addToGroup g t0 a else g) a := by
  rw [groupArticle, groupArticle, List.foldl_cons]

theorem lookupG_groupArticle (topics : List Str) (g : List (Str × List RawArticle))
    (a : RawArticle) (hnd : topics.Nodup) (t : Str) :
    lookupG t (groupArticle topics g a) =
      if t ∈ topics ∧ topicMatches t a = true
      then some ((lookupG t g).getD [] ++ [a]) else lookupG t g := by
  induction topics generalizing g with
  | nil => simp [groupArticle]
  | cons t0 ts ih =>
    obtain ⟨hnotin, hnd'⟩ := List.nodup_cons.mp hnd
    rw [groupArticle_cons]
    by_cases hm : topicMatches t0 a = true
    · rw [if_pos hm, ih (addToGroup g t0 a) hnd']
      by_cases hteq : t = t0
      · subst hteq
        rw [if_neg (by simp [hnotin]), lookupG_addToGroup_same,
          if_pos ⟨List.mem_cons_self t ts, hm⟩]
      · rw [lookupG_addToGroup_ne g t0 t a hteq]
        by_cases hin : t ∈ ts ∧ topicMatches t a = true
        · rw [if_pos hin, if_pos ⟨List.mem_cons_of_mem t0 hin.1, hin.2⟩]
        · rw [if_neg hin,
            if_neg fun hc => hin ⟨(List.mem_cons.mp hc.1).resolve_left hteq, hc.2⟩]
    · rw [if_neg hm, ih g hnd']
      by_cases hin : t ∈ ts ∧ topicMatches t a = true
      · rw [if_pos hin, if_pos ⟨List.mem_cons_of_mem t0 hin.1, hin.2⟩]
      · rw [if_neg hin, if_neg ?_]
        intro hc
        rcases List.mem_cons.mp hc.1 with rfl | hmem
        · exact hm hc.2
        · exact hin ⟨hmem, hc.2⟩

theorem lookupG_groupedFold (topics : List Str) (hnd : topics.Nodup)
    (articles : List RawArticle) (g : List (Str × List RawArticle)) (t : Str) :
    lookupG t (articles.foldl (groupArticle topics) g) =
      if t ∈ topics ∧ (articles.filter fun a => topicMatches t a) ≠ [] then
        some ((lookupG t g).getD [] ++ articles.filter fun a => topicMatches t a)
      else lookupG t g := by
  induction articles generalizing g with
  | nil => simp
  | cons a arts ih =>
    rw [List.foldl_cons, ih (groupArticle topics g a), lookupG_groupArticle topics g a hnd t]
    by_cases hin : t ∈ topics
    · by_cases hm : topicMatches t a = true
      · rw [List.filter_cons_of_pos hm]
        by_cases hrest : (arts.filter fun a => topicMatches t a) = []
        · rw [hrest]
          simp [hin, hm]
        · simp [hin, hm, hrest]
      · rw [List.filter_cons_of_neg (by simpa using hm)]
        simp [hm]
    · simp [hin]

theorem lookupG_groupedTopics (topics : List Str) (hnd : topics.Nodup)
    (articles : List RawArticle) (t : Str) :
    lookupG t (groupedTopics topics articles) =
      if t ∈ topics ∧ (articles.filter fun a => topicMatches t a) ≠ [] then
        some (articles.filter fun a => topicMatches t a)
      else none := by
  rw [groupedTopics, lookupG_groupedFold topics hnd articles [] t]
  rfl

theorem nodup_keys_groupArticle (topics : List Str) (g : List (Str × List RawArticle))
    (a : RawArticle) (h : (keysOf g).Nodup) : (keysOf (groupArticle topics g a)).Nodup := by
  induction topics generalizing g with
  | nil => exact h
  | cons t0 ts ih =>
    rw [groupArticle_cons]
    by_cases hm : topicMatches t0 a = true
    · rw [if_pos hm]
      exact ih _ (nodup_keys_addToGroup g t0 a h)
    · rw [if_neg hm]
      exact ih _ h

theorem nodup_keys_groupedTopics (topics : List Str) (articles : List RawArticle) :
    (keysOf (groupedTopics topics articles)).Nodup := by
  rw [groupedTopics]
  have : ∀ g, (keysOf g).Nodup → (keysOf (articles.foldl (groupArticle topics) g)).Nodup := by
    induction articles with
    | nil => exact fun g h => h
    | cons a arts ih =>
      intro g h
      rw [List.foldl_cons]
      exact ih _ (nodup_keys_groupArticle topics g a h)
  exact this [] (by simp [keysOf])

theorem mem_iff_lookupG {α : Type} (g : List (Str × α)) (hnd : (keysOf g).Nodup)
    (t : Str) (v : α) : (t, v) ∈ g ↔ lookupG t g = some v := by
  induction g with
  | nil => simp [lookupG]
  | cons kv rest ih =>
    obtain ⟨k, w⟩ := kv
    rw [keysOf_cons, List.nodup_cons] at hnd
    by_cases hk : k = t
    · subst hk
      rw [lookupG, if_pos rfl]
      constructor
      · intro hmem
        rcases List.mem_cons.mp hmem with heq | hmem'
        · injection heq with h1 h2
          rw [h2]
        · exact absurd (List.mem_map_of_mem Prod.fst hmem') hnd.1
      · intro hv
        injection hv with hv'
        rw [← hv']
        exact List.mem_cons_self _ _
    · rw [lookupG, if_neg hk, ← ih hnd.2]
      constructor
      · intro hmem
        rcases List.mem_cons.mp hmem with heq | hmem'
        · injection heq with h1 h2
          exact absurd h1.symm hk
        · exact hmem'
      · exact List.mem_cons_of_mem _

theorem mapTopicGroups_keys (fetch : Fetch) (getS : Except Unit Backend)
    (G : List (Str × List RawArticle)) (m : List (Str × Str))
    (h : mapTopicGroups fetch getS G = Except.ok m) : keysOf m = keysOf G := by
  induction G generalizing m with
  | nil =>
    rw [mapTopicGroups] at h
    cases h
    rfl
  | cons kv rest ih =>
    obtain ⟨t, arts⟩ := kv
    rw [mapTopicGroups] at h
    cases hs : summarize_articles fetch getS arts with
    | error e => rw [hs] at h; cases h
    | ok s =>
      rw [hs] at h
      cases hm : mapTopicGroups fetch getS rest with
      | error e => rw [hm] at h; cases h
      | ok m' =>
        rw [hm] at h
        cases h
        rw [keysOf_cons, keysOf_cons, ih m' hm]

theorem mapTopicGroups_mem_fwd (fetch : Fetch) (getS : Except Unit Backend)
    (G : List (Str × List RawArticle)) (m : List (Str × Str))
    (h : mapTopicGroups fetch getS G = Except.ok m) (t : Str) (s : Str)
    (hts : (t, s) ∈ m) :
    ∃ arts, (t, arts) ∈ G ∧ summarize_articles fetch getS arts = Except.ok s := by
  induction G generalizing m with
  | nil =>
    rw [mapTopicGroups] at h
    cases h
    cases hts
  | cons kv rest ih =>
    obtain ⟨t0, arts0⟩ := kv
    rw [mapTopicGroups] at h
    cases hs : summarize_articles fetch getS arts0 with
    | error e => rw [hs] at h; cases h
    | ok s0 =>
      rw [hs] at h
      cases hm : mapTopicGroups fetch getS rest with
      | error e => rw [hm] at h; cases h
      | ok m' =>
        rw [hm] at h
        cases h
        rcases List.mem_cons.mp hts with heq | hmem
        · cases heq
          exact ⟨arts0, List.mem_cons_self _ _, hs⟩
        · obtain ⟨arts, hmemG, hsum⟩ := ih m' hm hmem
          exact ⟨arts, List.mem_cons_of_mem _ hmemG, hsum⟩

theorem mapTopicGroups_mem_bwd (fetch : Fetch) (getS : Except Unit Backend)
    (G : List (Str × List RawArticle)) (m : List (Str × Str))
    (h : mapTopicGroups fetch getS G = Except.ok m) (t : Str) (arts : List RawArticle)
    (hts : (t, arts) ∈ G) :
    ∃ s, (t, s) ∈ m ∧ summarize_articles fetch getS arts = Except.ok s := by
  induction G generalizing m with
  | nil => cases hts
  | cons kv rest ih =>
    obtain ⟨t0, arts0⟩ := kv
    rw [mapTopicGroups] at h
    cases hs : summarize_articles fetch getS arts0 with
    | error e => rw [hs] at h; cases h
    | ok s0 =>
      rw [hs] at h
      cases hm : mapTopicGroups fetch getS rest with
      | error e => rw [hm] at h; cases h
      | ok m' =>
        rw [hm] at h
        cases h
        rcases List.mem_cons.mp hts with heq | hmem
        · cases heq
          exact ⟨s0, List.mem_cons_self _ _, hs⟩
        · obtain ⟨s, hmemM, hsum⟩ := ih m' hm hmem
          exact ⟨s, List.mem_cons_of_mem _ hmemM, hsum⟩

/-- Counterexample for C5: with the single topic `economy` and an empty
article list, the result is the empty mapping — the unmatched topic is
absent instead of mapping to the sentinel, so the key set does not equal
the input topic set. -/
theorem summarize_by_topic_missing_key :
    summarize_by_topic fetchNone (Except.ok backendS) ["economy".data] [] = Except.ok [] ∧
    keysOf ([] : List (Str × Str)) ≠ ["economy".data] := by
  constructor
  · decide
  · decide

/-- C5 (amended): for duplicate-free topic lists, when `summarize_by_topic`
returns a mapping its key set is exactly the set of topics matched by at
least one article (matching is case-insensitive substring containment of
the topic in the article's `title` and `desc` fields; an article may count
towards several topics); each present topic maps to `summarize_articles` of
the matching articles in input order.  Topics with no matching articles are
absent from the mapping (they do not map to the sentinel). -/
theorem summarize_by_topic_spec (fetch : Fetch) (getS : Except Unit Backend)
    (topics : List Str) (articles : List RawArticle) (m : List (Str × Str))
    (hnd : topics.Nodup)
    (hok : summarize_by_topic fetch getS topics articles = Except.ok m) :
    (∀ t, (∃ s, (t, s) ∈ m) ↔
      (t ∈ topics ∧ (articles.filter fun a => topicMatches t a) ≠ [])) ∧
    (∀ t s, (t, s) ∈ m →
      summarize_articles fetch getS (articles.filter fun a => topicMatches t a) =
        Except.ok s) := by
  rw [summarize_by_topic] at hok
  have hndk := nodup_keys_groupedTopics topics articles
  constructor
  · intro t
    constructor
    · rintro ⟨s, hts⟩
      obtain ⟨arts, hmemG, hsum⟩ := mapTopicGroups_mem_fwd fetch getS _ m hok t s hts
      have hlk := (mem_iff_lookupG _ hndk t arts).mp hmemG
      rw [lookupG_groupedTopics topics hnd articles t] at hlk
      by_cases hc : t ∈ topics ∧ (articles.filter fun a => topicMatches t a) ≠ []
      · exact hc
      · rw [if_neg hc] at hlk
        cases hlk
    · intro hc
      have hlk : lookupG t (groupedTopics topics articles) =
          some (articles.filter fun a => topicMatches t a) := by
        rw [lookupG_groupedTopics topics hnd articles t, if_pos hc]
      have hmemG := (mem_iff_lookupG _ hndk t _).mpr hlk
      obtain ⟨s, hmemM, _⟩ := mapTopicGroups_mem_bwd fetch getS _ m hok t _ hmemG
      exact ⟨s, hmemM⟩
  · intro t s hts
    obtain ⟨arts, hmemG, hsum⟩ := mapTopicGroups_mem_fwd fetch getS _ m hok t s hts
    have hlk := (mem_iff_lookupG _ hndk t arts).mp hmemG
    rw [lookupG_groupedTopics topics hnd articles t] at hlk
    by_cases hc : t ∈ topics ∧ (articles.filter fun a => topicMatches t a) ≠ []
    · rw [if_pos hc] at hlk
      injection hlk with hlk'
      rw [hlk']
      exact hsum
    · rw [if_neg hc] at hlk
      cases hlk

/-- Witness for C5 (amended): a matched topic's entry is the briefing of its
matching sub-list. -/
theorem summarize_by_topic_spec_witness :
    summarize_articles fetchNone (Except.ok backendS)
      ([artU].filter fun a => topicMatches "a".data a) = Except.ok sentinel :=
  (summarize_by_topic_spec fetchNone (Except.ok backendS) ["a".data] [artU]
    [("a".data, sentinel)] (by decide) (by decide)).2 "a".data sentinel (by decide)

/-- Counterexample for C9: the result of `summarize_by_topic` is not
independent of the network-fetch collaborator — a URL-only article that
matches a topic is fetched during per-group summarization, so a succeeding
fetch and a failing fetch yield different briefings. -/
theorem summarize_by_topic_fetch_sensitive :
    summarize_by_topic fetchHello (Except.ok backendS) ["a".data] [artU] ≠
      summarize_by_topic fetchNone (Except.ok backendS) ["a".data] [artU] := by
  decide

/-- C9 (amended): only the grouping phase of `summarize_by_topic` is
fetch-independent — it uses only the inline `title`/`desc` fields, so the
key sequence of any two successful results agrees for any two fetch
collaborators and backends; the per-topic briefing texts may depend on the
fetch. -/
theorem summarize_by_topic_keys_fetch_independent (topics : List Str)
    (articles : List RawArticle) (f1 f2 : Fetch) (g1 g2 : Except Unit Backend)
    (m1 m2 : List (Str × Str))
    (h1 : summarize_by_topic f1 g1 topics articles = Except.ok m1)
    (h2 : summarize_by_topic f2 g2 topics articles = Except.ok m2) :
    keysOf m1 = keysOf m2 := by
  rw [summarize_by_topic] at h1 h2
  rw [mapTopicGroups_keys f1 g1 _ m1 h1, mapTopicGroups_keys f2 g2 _ m2 h2]

/-- Witness for C9 (amended): the two differing results of the C9
counterexample still carry the same keys. -/
theorem summarize_by_topic_keys_fetch_independent_witness :
    keysOf [("a".data, ("- a (u)".data ++ '\n' :: ' ' :: ' ' :: "S".data))] =
      keysOf [("a".data, sentinel)] :=
  summarize_by_topic_keys_fetch_independent ["a".data] [artU] fetchHello fetchNone
    (Except.ok backendS) (Except.ok backendS) _ _ (by decide) (by decide)

/-- C6 (code evaluation): `_strip_html` does not remove the contents of
`<script>`/`<style>` elements.  `_SCRIPT_STYLE_RE` is built from the raw
string `r"(?is)<(script|style).*?>.*?</\\1>"`, whose closing part is the
five literal characters `</\1>` (an escaped backslash followed by the digit
1) rather than a backreference, so it never matches `</script>` or
`</style>`; only the individual tags are removed by the tag regex and the
element body survives. -/
theorem strip_html_keeps_script_body :
    strip_html "<script>alert(1)</script>".data = " alert(1) ".data ∧
    containsSub "alert(1)".data (strip_html "<script>alert(1)</script>".data) = true ∧
    strip_html "<style>p: red</style>".data = " p: red ".data := by
  refine ⟨by decide, by decide, by decide⟩

/-- C8 (code evaluation): with the skip flag unset, backend construction
fails at the credential check with `AttributeError` — the `Settings` object
built by config.py has no `has_hf_credentials` attribute — and it does so
whether or not the OpenRouter credential is configured, so the intended
credential `RuntimeError` is unreachable.  Only the skip flag avoids the
crash. -/
theorem get_summarizer_attribute_error :
    get_summarizer {} = Except.error PyError.attributeError ∧
    get_summarizer { openrouter_api_key := some "secret".data } =
      Except.error PyError.attributeError ∧
    get_summarizer { dailynews_skip_hf := some "1".data } =
      Except.ok SummarizerOutcome.stub := by
  refine ⟨by decide, by decide, by decide⟩

/-- Counterexample for C7: stripping is not idempotent after normalization —
normalization collapses and trims whitespace, so already for the tag-free
input `" a "` the round-trip differs from the single strip. -/
theorem strip_norm_strip_not_idempotent :
    strip_html (normalise_text (strip_html " a ".data)) ≠ strip_html " a ".data := by
  decide

/-! Structural facts about the HTML scanners, used for the idempotence
analysis of stripping and normalization. -/

theorem hasGt_eq_false_iff (l : Str) : hasGt l = false ↔ '>' ∉ l := by
  induction l with
  | nil => simp [hasGt]
  | cons c rest ih =>
    rw [hasGt, Bool.or_eq_false_iff]
    simp [ih, List.mem_cons, not_or, eq_comm]

theorem hasGt_append (a b : Str) : hasGt (a ++ b) = (hasGt a || hasGt b) := by
  induction a with
  | nil => simp [hasGt]
  | cons c rest ih => rw [List.cons_append, hasGt, hasGt, ih, Bool.or_assoc]

theorem hasGt_drop_false (l : Str) (n : Nat) (h : hasGt l = false) :
    hasGt (l.drop n) = false := by
  rw [hasGt_eq_false_iff] at h ⊢
  exact fun hm => h (List.mem_of_mem_drop hm)

theorem splitFirstGt_none (l : Str) (h : hasGt l = false) : splitFirstGt l = none := by
  induction l with
  | nil => rfl
  | cons c rest ih =>
    rw [hasGt, Bool.or_eq_false_iff] at h
    have hc : ¬c = '>' := by simpa using h.1
    rw [splitFirstGt, if_neg hc, ih h.2]

theorem scriptMatchEnd_none (rest : Str) (h : hasGt rest = false) :
    scriptMatchEnd rest = none := by
  rw [scriptMatchEnd, splitFirstGt_none rest h]

theorem splitFirstGt_eq (l : Str) (b aft : Str) (h : splitFirstGt l = some (b, aft)) :
    l = b ++ '>' :: aft := by
  induction l generalizing b aft with
  | nil => cases h
  | cons d rest ih =>
    rw [splitFirstGt] at h
    by_cases hd : d = '>'
    · rw [if_pos hd] at h
      injection h with h'
      injection h' with h1 h2
      subst hd
      subst h1
      subst h2
      rfl
    · rw [if_neg hd] at h
      cases hsp : splitFirstGt rest with
      | none =>
        rw [hsp] at h
        cases h
      | some ba =>
        obtain ⟨b', a'⟩ := ba
        rw [hsp] at h
        injection h with h'
        injection h' with h1 h2
        subst h2
        rw [← h1, List.cons_append, ih b' a' hsp]

theorem mem_dropAfterFirst (lit l t : Str) (h : dropAfterFirst lit l = some t)
    (c : Char) (hc : c ∈ t) : c ∈ l := by
  induction l with
  | nil => cases h
  | cons d rest ih =>
    rw [dropAfterFirst] at h
    by_cases hp : beginsWith lit (d :: rest) = true
    · rw [if_pos hp] at h
      injection h with h'
      subst h'
      exact List.mem_of_mem_drop hc
    · rw [if_neg hp] at h
      exact List.mem_cons_of_mem _ (ih h)

theorem mem_scriptMatchEnd (r tail : Str) (h : scriptMatchEnd r = some tail)
    (c : Char) (hc : c ∈ tail) : c ∈ r := by
  rw [scriptMatchEnd] at h
  cases hsp : splitFirstGt r with
  | none =>
    rw [hsp] at h
    cases h
  | some ba =>
    obtain ⟨b, aft⟩ := ba
    rw [hsp] at h
    have hdec := splitFirstGt_eq r b aft hsp
    have hm : c ∈ aft := mem_dropAfterFirst scriptCloseLit aft tail h c hc
    rw [hdec]
    simp [hm]

theorem mem_scriptSubGo (fuel : Nat) (l : Str) (c : Char) (hc : c ∈ scriptSubGo fuel l) :
    c ∈ l ∨ c = ' ' := by
  induction fuel generalizing l with
  | zero => exact Or.inl hc
  | succ fuel ih =>
    cases l with
    | nil => cases hc
    | cons d rest =>
      rw [scriptSubGo] at hc
      by_cases hd : d = '<'
      · rw [if_pos hd] at hc
        by_cases hs : lowerBeginsWith "script".data rest = true
        · rw [if_pos hs] at hc
          cases hme : scriptMatchEnd (rest.drop 6) with
          | some tail =>
            rw [hme] at hc
            rcases List.mem_cons.mp hc with rfl | hm
            · exact Or.inr rfl
            · rcases ih tail hm with h | h
              · exact Or.inl (List.mem_cons_of_mem _
                  (List.mem_of_mem_drop (mem_scriptMatchEnd _ tail hme c h)))
              · exact Or.inr h
          | none =>
            rw [hme] at hc
            rcases List.mem_cons.mp hc with rfl | hm
            · exact Or.inl (List.mem_cons_self _ _)
            · rcases ih rest hm with h | h
              · exact Or.inl (List.mem_cons_of_mem _ h)
              · exact Or.inr h
        · rw [if_neg hs] at hc
          by_cases hst : lowerBeginsWith "style".data rest = true
          · rw [if_pos hst] at hc
            cases hme : scriptMatchEnd (rest.drop 5) with
            | some tail =>
              rw [hme] at hc
              rcases List.mem_cons.mp hc with rfl | hm
              · exact Or.inr rfl
              · rcases ih tail hm with h | h
                · exact Or.inl (List.mem_cons_of_mem _
                    (List.mem_of_mem_drop (mem_scriptMatchEnd _ tail hme c h)))
                · exact Or.inr h
            | none =>
              rw [hme] at hc
              rcases List.mem_cons.mp hc with rfl | hm
              · exact Or.inl (List.mem_cons_self _ _)
              · rcases ih rest hm with h | h
                · exact Or.inl (List.mem_cons_of_mem _ h)
                · exact Or.inr h
          · rw [if_neg hst] at hc
            rcases List.mem_cons.mp hc with rfl | hm
            · exact Or.inl (List.mem_cons_self _ _)
            · rcases ih rest hm with h | h
              · exact Or.inl (List.mem_cons_of_mem _ h)
              · exact Or.inr h
      · rw [if_neg hd] at hc
        rcases List.mem_cons.mp hc with rfl | hm
        · exact Or.inl (List.mem_cons_self _ _)
        · rcases ih rest hm with h | h
          · exact Or.inl (List.mem_cons_of_mem _ h)
          · exact Or.inr h

theorem mem_tagSubGo (l : Str) (ob : Option Str) (c : Char) (hc : c ∈ tagSubGo l ob) :
    c ∈ l ∨ (∃ b, ob = some b ∧ c ∈ b) ∨ c = ' ' ∨ c = '<' ∨ c = '>' := by
  induction l generalizing ob with
  | nil =>
    cases ob with
    | none => cases hc
    | some buf =>
      rw [tagSubGo] at hc
      rcases List.mem_cons.mp hc with rfl | hm
      · exact Or.inr (Or.inr (Or.inr (Or.inl rfl)))
      · exact Or.inr (Or.inl ⟨buf, rfl, List.mem_reverse.mp hm⟩)
  | cons d rest ih =>
    cases ob with
    | none =>
      rw [tagSubGo] at hc
      by_cases hd : d = '<'
      · rw [if_pos hd] at hc
        rcases ih (some []) hc with h | ⟨b, hb, hcb⟩ | h
        · exact Or.inl (List.mem_cons_of_mem _ h)
        · injection hb with hb'
          subst hb'
          cases hcb
        · exact Or.inr (Or.inr h)
      · rw [if_neg hd] at hc
        rcases List.mem_cons.mp hc with rfl | hm
        · exact Or.inl (List.mem_cons_self _ _)
        · rcases ih none hm with h | ⟨b, hb, _⟩ | h
          · exact Or.inl (List.mem_cons_of_mem _ h)
          · cases hb
          · exact Or.inr (Or.inr h)
    | some buf =>
      rw [tagSubGo] at hc
      by_cases hd : d = '>'
      · rw [if_pos hd] at hc
        by_cases hb : buf = []
        · rw [if_pos hb] at hc
          rcases List.mem_cons.mp hc with rfl | hm
          · exact Or.inr (Or.inr (Or.inr (Or.inl rfl)))
          · rcases List.mem_cons.mp hm with rfl | hm'
            · exact Or.inr (Or.inr (Or.inr (Or.inr rfl)))
            · rcases ih none hm' with h | ⟨b, hbb, _⟩ | h
              · exact Or.inl (List.mem_cons_of_mem _ h)
              · cases hbb
              · exact Or.inr (Or.inr h)
        · rw [if_neg hb] at hc
          rcases List.mem_cons.mp hc with rfl | hm
          · exact Or.inr (Or.inr (Or.inl rfl))
          · rcases ih none hm with h | ⟨b, hbb, _⟩ | h
            · exact Or.inl (List.mem_cons_of_mem _ h)
            · cases hbb
            · exact Or.inr (Or.inr h)
      · rw [if_neg hd] at hc
        rcases ih (some (d :: buf)) hc with h | ⟨b, hbb, hcb⟩ | h
        · exact Or.inl (List.mem_cons_of_mem _ h)
        · injection hbb with hbb'
          subst hbb'
          rcases List.mem_cons.mp hcb with rfl | hm
          · exact Or.inl (List.mem_cons_self _ _)
          · exact Or.inr (Or.inl ⟨buf, rfl, hm⟩)
        · exact Or.inr (Or.inr h)

theorem mem_tagSub (l : Str) (c : Char) (hc : c ∈ tagSub l) :
    c ∈ l ∨ c = ' ' ∨ c = '<' ∨ c = '>' := by
  rcases mem_tagSubGo l none c hc with h | ⟨b, hb, _⟩ | h
  · exact Or.inl h
  · cases hb
  · exact Or.inr h

theorem mem_collapseWsGo (prev : Bool) (l : Str) (c : Char)
    (hc : c ∈ collapseWsGo prev l) : c ∈ l ∨ c = ' ' := by
  induction l generalizing prev with
  | nil => cases hc
  | cons d rest ih =>
    rw [collapseWsGo] at hc
    by_cases hd : isPySpace d = true
    · rw [if_pos hd] at hc
      by_cases hp : prev = true
      · rw [if_pos hp] at hc
        rcases ih true hc with h | h
        · exact Or.inl (List.mem_cons_of_mem _ h)
        · exact Or.inr h
      · rw [if_neg hp] at hc
        rcases List.mem_cons.mp hc with rfl | hm
        · exact Or.inr rfl
        · rcases ih true hm with h | h
          · exact Or.inl (List.mem_cons_of_mem _ h)
          · exact Or.inr h
    · rw [if_neg hd] at hc
      rcases List.mem_cons.mp hc with rfl | hm
      · exact Or.inl (List.mem_cons_self _ _)
      · rcases ih false hm with h | h
        · exact Or.inl (List.mem_cons_of_mem _ h)
        · exact Or.inr h

theorem mem_replaceNul (l : Str) (c : Char) (hc : c ∈ replaceNul l) :
    c ∈ l ∨ c = ' ' := by
  obtain ⟨d, hd, hdc⟩ := List.mem_map.mp hc
  by_cases h0 : d = '\x00'
  · rw [if_pos h0] at hdc
    exact Or.inr hdc.symm
  · rw [if_neg h0] at hdc
    exact Or.inl (hdc ▸ hd)

theorem replaceNul_no_nul (l : Str) : '\x00' ∉ replaceNul l := by
  intro h
  obtain ⟨d, hd, hdc⟩ := List.mem_map.mp h
  by_cases h0 : d = '\x00'
  · rw [if_pos h0] at hdc
    exact (by decide : ¬(' ' : Char) = '\x00') hdc
  · rw [if_neg h0] at hdc
    exact h0 hdc

theorem replaceNul_id (l : Str) (h : '\x00' ∉ l) : replaceNul l = l := by
  induction l with
  | nil => rfl
  | cons d rest ih =>
    rw [replaceNul, List.map_cons]
    rw [if_neg fun h0 => h (by rw [← h0]; exact List.mem_cons_self d rest)]
    rw [show List.map (fun c => if c = '\x00' then ' ' else c) rest = replaceNul rest from rfl,
      ih fun hm => h (List.mem_cons_of_mem _ hm)]

theorem unescapeGo_no_amp (fuel : Nat) (l : Str) (h : '&' ∉ l) : unescapeGo fuel l = l := by
  induction fuel generalizing l with
  | zero => rfl
  | succ fuel ih =>
    cases l with
    | nil => rfl
    | cons c rest =>
      have hc : ¬c = '&' := fun hc => h (by rw [← hc]; exact List.mem_cons_self _ _)
      rw [unescapeGo, if_neg hc, ih rest fun hm => h (List.mem_cons_of_mem _ hm)]

theorem unescape_no_amp (l : Str) (h : '&' ∉ l) : unescape l = l :=
  unescapeGo_no_amp _ l h

theorem mem_trimLeft (l : Str) (c : Char) (h : c ∈ trimLeft l) : c ∈ l :=
  ((List.dropWhile_suffix isPySpace).sublist).subset h

theorem mem_trimRight (l : Str) (c : Char) (h : c ∈ trimRight l) : c ∈ l :=
  (trimRight_isPrefix l).sublist.subset h

theorem mem_pyStrip (l : Str) (c : Char) (h : c ∈ pyStrip l) : c ∈ l :=
  mem_trimLeft l c (mem_trimRight (trimLeft l) c h)

theorem tagFree_tail (c : Char) (rest : Str) (h : tagFree (c :: rest) = true) :
    tagFree rest = true := by
  rw [tagFree, Bool.and_eq_true] at h
  exact h.2

theorem noGt_tagFree (l : Str) (h : hasGt l = false) : tagFree l = true := by
  induction l with
  | nil => rfl
  | cons c rest ih =>
    rw [hasGt, Bool.or_eq_false_iff] at h
    rw [tagFree, Bool.and_eq_true]
    refine ⟨?_, ih h.2⟩
    by_cases hc : c = '<'
    · rw [if_pos hc, h.2]
      simp
    · rw [if_neg hc]

theorem noLt_tagFree (l : Str) (h : '<' ∉ l) : tagFree l = true := by
  induction l with
  | nil => rfl
  | cons c rest ih =>
    have hc : ¬c = '<' := fun hc => h (by rw [← hc]; exact List.mem_cons_self _ _)
    rw [tagFree, Bool.and_eq_true, if_neg hc]
    exact ⟨rfl, ih fun hm => h (List.mem_cons_of_mem _ hm)⟩

theorem tagFree_tagSubGo (l : Str) (ob : Option Str)
    (hbuf : ∀ b, ob = some b → hasGt b = false) :
    tagFree (tagSubGo l ob) = true := by
  induction l generalizing ob with
  | nil =>
    cases ob with
    | none => rfl
    | some buf =>
      rw [tagSubGo]
      have hb := hbuf buf rfl
      have hbr : hasGt buf.reverse = false := by
        rw [hasGt_eq_false_iff] at hb ⊢
        simpa using hb
      rw [tagFree, Bool.and_eq_true]
      constructor
      · rw [if_pos rfl, hbr]
        simp
      · exact noGt_tagFree _ hbr
  | cons c rest ih =>
    cases ob with
    | none =>
      rw [tagSubGo]
      by_cases hc : c = '<'
      · rw [if_pos hc]
        exact ih (some []) fun b hb => by cases hb; rfl
      · rw [if_neg hc, tagFree, Bool.and_eq_true]
        exact ⟨by rw [if_neg hc], ih none fun b hb => by cases hb⟩
    | some buf =>
      rw [tagSubGo]
      by_cases hc : c = '>'
      · rw [if_pos hc]
        by_cases hb : buf = []
        · rw [if_pos hb, tagFree, Bool.and_eq_true]
          constructor
          · rw [if_pos rfl]
            rw [show headIsGt ('>' :: tagSubGo rest none) = true from by
              rw [headIsGt]; simp]
            simp
          · rw [tagFree, Bool.and_eq_true]
            exact ⟨by rw [if_neg (by decide : ¬('>' : Char) = '<')],
              ih none fun b hbb => by cases hbb⟩
        · rw [if_neg hb, tagFree, Bool.and_eq_true]
          exact ⟨by rw [if_neg (by decide : ¬(' ' : Char) = '<')],
            ih none fun b hbb => by cases hbb⟩
      · rw [if_neg hc]
        refine ih (some (c :: buf)) ?_
        intro b hbb
        cases hbb
        rw [hasGt, Bool.or_eq_false_iff]
        exact ⟨by simpa using hc, hbuf buf rfl⟩

theorem tagFree_tagSub (l : Str) : tagFree (tagSub l) = true :=
  tagFree_tagSubGo l none fun b hb => by cases hb

theorem tagSubGo_pending_noGt (rest : Str) (buf : Str) (h : hasGt rest = false) :
    tagSubGo rest (some buf) = '<' :: buf.reverse ++ rest := by
  induction rest generalizing buf with
  | nil =>
    rw [tagSubGo]
    simp
  | cons c r ih =>
    rw [hasGt, Bool.or_eq_false_iff] at h
    have hc : ¬c = '>' := by simpa using h.1
    rw [tagSubGo, if_neg hc, ih (c :: buf) h.2]
    simp

theorem tagSub_id_of_tagFree (l : Str) (h : tagFree l = true) : tagSubGo l none = l := by
  induction l with
  | nil => rfl
  | cons c rest ih =>
    rw [tagFree, Bool.and_eq_true] at h
    rw [tagSubGo]
    by_cases hc : c = '<'
    · rw [if_pos hc]
      have hcond := h.1
      rw [if_pos hc] at hcond
      rcases Bool.or_eq_true _ _ ▸ hcond with hhd | hng
      · cases rest with
        | nil => cases hhd
        | cons d r =>
          have hd : d = '>' := by
            rw [headIsGt] at hhd
            simpa using hhd
          subst hd
          rw [tagSubGo, if_pos rfl, if_pos rfl]
          have hrec := ih h.2
          rw [tagSubGo, if_neg (by decide : ¬('>' : Char) = '<')] at hrec
          injection hrec with _ h'
          rw [h', hc]
      · have hng' : hasGt rest = false := by
          rw [Bool.not_eq_true'] at hng
          exact hng
        rw [tagSubGo_pending_noGt rest [] hng']
        simp [hc]
    · rw [if_neg hc, ih h.2]

theorem lowerBeginsWith_cons (p : Char) (ps rest : Str)
    (h : lowerBeginsWith (p :: ps) rest = true) :
    ∃ d r, rest = d :: r ∧ p = d.toLower := by
  cases rest with
  | nil => cases h
  | cons d r =>
    rw [lowerBeginsWith, Bool.and_eq_true] at h
    exact ⟨d, r, rfl, by simpa using h.1⟩

theorem scriptSubGo_id_of_tagFree (fuel : Nat) (l : Str) (h : tagFree l = true) :
    scriptSubGo fuel l = l := by
  induction fuel generalizing l with
  | zero => rfl
  | succ fuel ih =>
    cases l with
    | nil => rfl
    | cons c rest =>
      rw [tagFree, Bool.and_eq_true] at h
      rw [scriptSubGo]
      by_cases hc : c = '<'
      · rw [if_pos hc]
        have hcond := h.1
        rw [if_pos hc] at hcond
        have hng : lowerBeginsWith "script".data rest = true ∨
            lowerBeginsWith "style".data rest = true → hasGt rest = false := by
          intro hpre
          have hhead : headIsGt rest = false := by
            have : ∃ d r, rest = d :: r ∧ 's' = d.toLower := by
              rcases hpre with hp | hp
              · exact lowerBeginsWith_cons 's' _ rest
                  (by rw [show "script".data = 's' :: "cript".data from rfl] at hp; exact hp)
              · exact lowerBeginsWith_cons 's' _ rest
                  (by rw [show "style".data = 's' :: "tyle".data from rfl] at hp; exact hp)
            obtain ⟨d, r, rfl, hlow⟩ := this
            rw [headIsGt]
            have hdne : ¬d = '>' := by
              intro hd
              rw [hd] at hlow
              exact (by decide : ¬('s' : Char) = Char.toLower '>') hlow
            simpa using hdne
          rcases Bool.or_eq_true _ _ ▸ hcond with hhd | hg
          · rw [hhead] at hhd
            cases hhd
          · rw [Bool.not_eq_true'] at hg
            exact hg
        by_cases hs : lowerBeginsWith "script".data rest = true
        · rw [if_pos hs,
            scriptMatchEnd_none _ (hasGt_drop_false rest 6 (hng (Or.inl hs))),
            ih rest h.2]
        · rw [if_neg hs]
          by_cases hst : lowerBeginsWith "style".data rest = true
          · rw [if_pos hst,
              scriptMatchEnd_none _ (hasGt_drop_false rest 5 (hng (Or.inr hst))),
              ih rest h.2]
          · rw [if_neg hst, ih rest h.2]
      · rw [if_neg hc, ih rest h.2]

theorem scriptSub_id_of_tagFree (l : Str) (h : tagFree l = true) : scriptSub l = l :=
  scriptSubGo_id_of_tagFree l.length l h

theorem collapsedOK_id (prev : Bool) (l : Str) (h : collapsedOK prev l = true) :
    collapseWsGo prev l = l := by
  induction l generalizing prev with
  | nil => rfl
  | cons c rest ih =>
    rw [collapsedOK] at h
    rw [collapseWsGo]
    by_cases hcs : isPySpace c = true
    · rw [if_pos hcs] at h ⊢
      rw [Bool.and_eq_true, Bool.and_eq_true] at h
      obtain ⟨⟨hc, hprev⟩, hrest⟩ := h
      have hp : prev = false := by
        rw [Bool.not_eq_true'] at hprev
        exact hprev
      have hc' : c = ' ' := by simpa using hc
      rw [hp]
      simp only [Bool.false_eq_true, if_false]
      rw [hc', ih true hrest]
    · rw [if_neg hcs] at h ⊢
      rw [ih false h]

theorem collapsedOK_go (prev : Bool) (l : Str) :
    collapsedOK prev (collapseWsGo prev l) = true := by
  induction l generalizing prev with
  | nil => rfl
  | cons c rest ih =>
    rw [collapseWsGo]
    by_cases hcs : isPySpace c = true
    · rw [if_pos hcs]
      by_cases hp : prev = true
      · rw [if_pos hp, hp]
        exact ih true
      · rw [if_neg hp]
        have hp' : prev = false := by
          rw [← Bool.not_eq_true]
          exact hp
        rw [hp', collapsedOK, if_pos (by decide : isPySpace ' ' = true)]
        simp [ih true]
    · rw [if_neg hcs, collapsedOK, if_neg hcs]
      exact ih false

theorem collapsedOK_append_left (prev : Bool) (l₁ l₂ : Str)
    (h : collapsedOK prev (l₁ ++ l₂) = true) : collapsedOK prev l₁ = true := by
  induction l₁ generalizing prev with
  | nil => rfl
  | cons c rest ih =>
    rw [List.cons_append, collapsedOK] at h
    rw [collapsedOK]
    by_cases hcs : isPySpace c = true
    · rw [if_pos hcs] at h ⊢
      rw [Bool.and_eq_true] at h ⊢
      exact ⟨h.1, ih true h.2⟩
    · rw [if_neg hcs] at h ⊢
      exact ih false h

theorem collapsedOK_trimLeft (l : Str) (h : collapsedOK false l = true) :
    collapsedOK false (trimLeft l) = true := by
  cases l with
  | nil => rfl
  | cons c rest =>
    by_cases hcs : isPySpace c = true
    · rw [collapsedOK, if_pos hcs, Bool.and_eq_true, Bool.and_eq_true] at h
      obtain ⟨⟨hc, _⟩, hrest⟩ := h
      have hrest_head : rest = [] ∨ isPySpace rest.headI = false := by
        cases rest with
        | nil => exact Or.inl rfl
        | cons d r =>
          right
          rw [collapsedOK] at hrest
          by_cases hd : isPySpace d = true
          · rw [if_pos hd] at hrest
            simp at hrest
          · rw [Bool.eq_false_iff]
            exact hd
      have htl : trimLeft (c :: rest) = rest := by
        rw [trimLeft, List.dropWhile_cons, if_pos hcs]
        rcases hrest_head with h' | h'
        · rw [h']
          rfl
        · cases rest with
          | nil => rfl
          | cons d r =>
            have h'' : isPySpace d = false := h'
            rw [List.dropWhile_cons, if_neg (by simp [h''])]
      rw [htl]
      cases rest with
      | nil => rfl
      | cons d r =>
        rcases hrest_head with h' | h'
        · cases h'
        · have h'' : isPySpace d = false := h'
          rw [collapsedOK, if_neg (by simp [h''])] at hrest ⊢
          exact hrest
    · rwa [trimLeft, List.dropWhile_cons, if_neg hcs]

theorem collapsedOK_pyStrip (l : Str) (h : collapsedOK false l = true) :
    collapsedOK false (pyStrip l) = true := by
  rw [pyStrip]
  have h1 := collapsedOK_trimLeft l h
  obtain ⟨t, ht⟩ := trimRight_isPrefix (trimLeft l)
  rw [← ht] at h1
  exact collapsedOK_append_left false _ t h1

theorem dropWhile_head_neg (p : Char → Bool) (l : Str) :
    l.dropWhile p = [] ∨ ∃ d r, l.dropWhile p = d :: r ∧ p d = false := by
  rcases dropWhile_head_false p l with h | h
  · exact Or.inl h
  · cases hd : l.dropWhile p with
    | nil => exact Or.inl rfl
    | cons d r =>
      right
      refine ⟨d, r, rfl, ?_⟩
      rw [hd] at h
      exact h

theorem trimRight_trimRight (s : Str) : trimRight (trimRight s) = trimRight s := by
  simp [trimRight, List.dropWhile_idempotent]

theorem pyStrip_idem (s : Str) : pyStrip (pyStrip s) = pyStrip s := by
  rw [pyStrip, pyStrip]
  have htl : trimLeft (trimRight (trimLeft s)) = trimRight (trimLeft s) := by
    by_cases hnil : trimRight (trimLeft s) = []
    · rw [hnil]
      rfl
    · have hh : (trimRight (trimLeft s)).headI = (trimLeft s).headI :=
        prefix_headI _ _ (trimRight_isPrefix (trimLeft s)) hnil
      cases htr : trimRight (trimLeft s) with
      | nil => exact absurd htr hnil
      | cons d r =>
        rw [trimLeft, List.dropWhile_cons]
        have hd : isPySpace d = false := by
          rcases dropWhile_head_false isPySpace s with h' | h'
          · exfalso
            apply hnil
            rw [show trimLeft s = [] from h']
            rfl
          · rw [htr] at hh
            have : d = (trimLeft s).headI := hh
            rw [this]
            exact h'
        rw [if_neg (by simp [hd])]
  rw [htl, trimRight_trimRight]

theorem hasGt_replaceNul (l : Str) : hasGt (replaceNul l) = hasGt l := by
  induction l with
  | nil => rfl
  | cons c rest ih =>
    rw [replaceNul, List.map_cons,
      show List.map (fun c => if c = '\x00' then ' ' else c) rest = replaceNul rest from rfl,
      hasGt, hasGt, ih]
    by_cases h0 : c = '\x00'
    · rw [if_pos h0, h0]
      simp
    · rw [if_neg h0]

theorem headIsGt_replaceNul (l : Str) : headIsGt (replaceNul l) = headIsGt l := by
  cases l with
  | nil => rfl
  | cons c rest =>
    rw [replaceNul, List.map_cons, headIsGt, headIsGt]
    by_cases h0 : c = '\x00'
    · rw [if_pos h0, h0]
      simp
    · rw [if_neg h0]

theorem tagFree_replaceNul (l : Str) (h : tagFree l = true) :
    tagFree (replaceNul l) = true := by
  induction l with
  | nil => rfl
  | cons c rest ih =>
    rw [tagFree, Bool.and_eq_true] at h
    rw [replaceNul, List.map_cons,
      show List.map (fun c => if c = '\x00' then ' ' else c) rest = replaceNul rest from rfl,
      tagFree, Bool.and_eq_true]
    refine ⟨?_, ih h.2⟩
    by_cases h0 : c = '\x00'
    · rw [if_pos h0, if_neg (by decide : ¬(' ' : Char) = '<')]
    · rw [if_neg h0]
      by_cases hc : c = '<'
      · rw [if_pos hc, headIsGt_replaceNul, hasGt_replaceNul]
        have hcond := h.1
        rw [if_pos hc] at hcond
        exact hcond
      · rw [if_neg hc]

theorem space_ne_gt (c : Char) (h : isPySpace c = true) : ¬c = '>' := by
  intro hc
  rw [hc] at h
  exact absurd h (by decide)

theorem space_ne_lt (c : Char) (h : isPySpace c = true) : ¬c = '<' := by
  intro hc
  rw [hc] at h
  exact absurd h (by decide)

theorem hasGt_collapseWsGo (prev : Bool) (l : Str) :
    hasGt (collapseWsGo prev l) = hasGt l := by
  induction l generalizing prev with
  | nil => rfl
  | cons c rest ih =>
    rw [collapseWsGo]
    by_cases hcs : isPySpace c = true
    · rw [if_pos hcs]
      have hc : ¬c = '>' := space_ne_gt c hcs
      by_cases hp : prev = true
      · rw [if_pos hp, ih true, hasGt]
        simp [hc]
      · rw [if_neg hp, hasGt, ih true, hasGt]
        simp [hc]
    · rw [if_neg hcs, hasGt, hasGt, ih false]

theorem tagFree_collapseWsGo (prev : Bool) (l : Str) (h : tagFree l = true) :
    tagFree (collapseWsGo prev l) = true := by
  induction l generalizing prev with
  | nil => rfl
  | cons c rest ih =>
    have htail := tagFree_tail c rest h
    rw [tagFree, Bool.and_eq_true] at h
    rw [collapseWsGo]
    by_cases hcs : isPySpace c = true
    · rw [if_pos hcs]
      by_cases hp : prev = true
      · rw [if_pos hp]
        exact ih true htail
      · rw [if_neg hp, tagFree, Bool.and_eq_true]
        exact ⟨by rw [if_neg (by decide : ¬(' ' : Char) = '<')], ih true htail⟩
    · rw [if_neg hcs, tagFree, Bool.and_eq_true]
      refine ⟨?_, ih false htail⟩
      by_cases hc : c = '<'
      · rw [if_pos hc]
        have hcond := h.1
        rw [if_pos hc] at hcond
        rcases Bool.or_eq_true _ _ ▸ hcond with hhd | hg
        · cases rest with
          | nil => cases hhd
          | cons d r =>
            have hd : d = '>' := by
              rw [headIsGt] at hhd
              simpa using hhd
            subst hd
            rw [collapseWsGo, if_neg (by decide : ¬isPySpace '>' = true)]
            rw [show headIsGt ('>' :: collapseWsGo false r) = true from by
              rw [headIsGt]; simp]
            simp
        · rw [hasGt_collapseWsGo]
          rw [hg]
          simp
      · rw [if_neg hc]

theorem tagFree_append_left (l₁ l₂ : Str) (h : tagFree (l₁ ++ l₂) = true) :
    tagFree l₁ = true := by
  induction l₁ with
  | nil => rfl
  | cons c rest ih =>
    rw [List.cons_append, tagFree, Bool.and_eq_true] at h
    rw [tagFree, Bool.and_eq_true]
    refine ⟨?_, ih h.2⟩
    by_cases hc : c = '<'
    · rw [if_pos hc]
      have hcond := h.1
      rw [if_pos hc] at hcond
      rcases Bool.or_eq_true _ _ ▸ hcond with hhd | hg
      · cases rest with
        | nil => simp [headIsGt, hasGt]
        | cons d r =>
          rw [List.cons_append, headIsGt] at hhd
          rw [headIsGt, hhd]
          simp
      · rw [Bool.not_eq_true', hasGt_append, Bool.or_eq_false_iff] at hg
        rw [hg.1]
        simp
    · rw [if_neg hc]

theorem tagFree_trimLeft (l : Str) (h : tagFree l = true) :
    tagFree (trimLeft l) = true := by
  induction l with
  | nil => rfl
  | cons c rest ih =>
    rw [trimLeft, List.dropWhile_cons]
    by_cases hcs : isPySpace c = true
    · rw [if_pos hcs]
      exact ih (tagFree_tail c rest h)
    · rw [if_neg hcs]
      exact h

theorem tagFree_pyStrip (l : Str) (h : tagFree l = true) :
    tagFree (pyStrip l) = true := by
  rw [pyStrip]
  have h1 := tagFree_trimLeft l h
  obtain ⟨t, ht⟩ := trimRight_isPrefix (trimLeft l)
  rw [← ht] at h1
  exact tagFree_append_left _ t h1

theorem no_amp_strip_html (x : Str) (h : '&' ∉ x) : '&' ∉ strip_html x := by
  rw [strip_html]
  by_cases hlt : '<' ∈ x
  · rw [if_pos hlt]
    intro hmem
    rcases mem_tagSub _ _ hmem with hm | hm | hm | hm
    · rcases mem_scriptSubGo _ _ _ hm with hm' | hm'
      · exact h hm'
      · exact (by decide : ¬('&' : Char) = ' ') hm'
    · exact (by decide : ¬('&' : Char) = ' ') hm
    · exact (by decide : ¬('&' : Char) = '<') hm
    · exact (by decide : ¬('&' : Char) = '>') hm
  · rw [if_neg hlt]
    exact h

theorem no_amp_normalise (w : Str) (h : '&' ∉ w) : '&' ∉ normalise_text w := by
  rw [normalise_text, unescape_no_amp w h]
  intro hmem
  have h1 := mem_pyStrip _ _ hmem
  rcases mem_collapseWsGo false _ _ h1 with h2 | h2
  · rcases mem_replaceNul _ _ h2 with h3 | h3
    · exact h h3
    · exact (by decide : ¬('&' : Char) = ' ') h3
  · exact (by decide : ¬('&' : Char) = ' ') h2

theorem no_nul_normalise (w : Str) : '\x00' ∉ normalise_text w := by
  intro hmem
  have h1 := mem_pyStrip _ _ hmem
  rcases mem_collapseWsGo false _ _ h1 with h2 | h2
  · exact replaceNul_no_nul _ h2
  · exact (by decide : ¬('\x00' : Char) = ' ') h2

theorem normalise_text_fixed (y : Str) (hamp : '&' ∉ y) (hnul : '\x00' ∉ y)
    (hOK : collapsedOK false y = true) (hstripped : pyStrip y = y) :
    normalise_text y = y := by
  rw [normalise_text, unescape_no_amp y hamp, replaceNul_id y hnul,
    show collapseWs y = y from collapsedOK_id false y hOK, hstripped]

/-- C7 (amended): stripping after normalization is idempotent only up to a
final normalization, and only on inputs without the `&` character (entity
decoding can manufacture fresh markup): for `&`-free `x`,
`normalise ∘ strip` is a projection —
`normalise_text (strip_html (normalise_text (strip_html x))) =
normalise_text (strip_html x)`.  The originally claimed equation
`strip_html (normalise_text (strip_html x)) = strip_html x` fails because
normalization collapses whitespace (see the counterexample). -/
theorem strip_norm_idempotent (x : Str) (hx : '&' ∉ x) :
    normalise_text (strip_html (normalise_text (strip_html x))) =
      normalise_text (strip_html x) := by
  have hw_tf : tagFree (strip_html x) = true := by
    rw [strip_html]
    by_cases hlt : '<' ∈ x
    · rw [if_pos hlt]
      exact tagFree_tagSub _
    · rw [if_neg hlt]
      exact noLt_tagFree x hlt
  have hw_amp : '&' ∉ strip_html x := no_amp_strip_html x hx
  have hy_amp : '&' ∉ normalise_text (strip_html x) :=
    no_amp_normalise (strip_html x) hw_amp
  have hy_nul : '\x00' ∉ normalise_text (strip_html x) := no_nul_normalise _
  have hy_tf : tagFree (normalise_text (strip_html x)) = true := by
    rw [normalise_text, unescape_no_amp _ hw_amp]
    exact tagFree_pyStrip _ (tagFree_collapseWsGo false _ (tagFree_replaceNul _ hw_tf))
  have hy_OK : collapsedOK false (normalise_text (strip_html x)) = true := by
    rw [normalise_text, unescape_no_amp _ hw_amp]
    exact collapsedOK_pyStrip _ (collapsedOK_go false _)
  have hy_strip : pyStrip (normalise_text (strip_html x)) = normalise_text (strip_html x) := by
    rw [normalise_text]
    exact pyStrip_idem _
  have h_strip_y : strip_html (normalise_text (strip_html x)) =
      normalise_text (strip_html x) := by
    rw [strip_html]
    by_cases hlt : '<' ∈ normalise_text (strip_html x)
    · rw [if_pos hlt, scriptSub_id_of_tagFree _ hy_tf]
      exact tagSub_id_of_tagFree _ hy_tf
    · rw [if_neg hlt]
  rw [h_strip_y]
  exact normalise_text_fixed _ hy_amp hy_nul hy_OK hy_strip

/-- Witness for C7 (amended): a concrete ampersand-free HTML input. -/
theorem strip_norm_idempotent_witness :
    ('&' ∉ " <b>a</b> ".data) ∧
    normalise_text (strip_html (normalise_text (strip_html " <b>a</b> ".data))) =
      normalise_text (strip_html " <b>a</b> ".data) :=
  ⟨by decide, strip_norm_idempotent " <b>a</b> ".data (by decide)⟩

end DailyNews
